import Mathlib

/-!
Formal model of the cluster coordinator core of this repository
(`src/cluster-coordinator/server.py`, class `ClusterCoordinator` together
with the HTTP handler `submit_task_handler`).

The coordinator is a single-threaded asyncio server; work interleaves only
at await points, so each message handler runs to completion atomically.
We model it as a state machine: `CoordState` is the coordinator's mutable
state, each externally triggered activity (a node connecting, a channel
closing, an inbound WebSocket message, an HTTP task submission) is an `Op`,
and `step` executes one activity exactly as the Python source does,
returning the new state and the list of messages sent to nodes.

Modelling decisions, all mirroring the source:
* Python dicts preserve insertion order, so `nodes` and `tasks` are
  association lists: a fresh key is appended at the end, an existing key is
  updated in place (`updateA`).
* `uuid.uuid4()` task ids are globally unique; we model them by a counter
  `next_id`, so task ids are `Nat` and submission order equals id order.
* `time.time()` values are opaque inputs carried by the triggering `Op`.
* Floats (`performance_score`) carry no arithmetic in the core, so they are
  modelled as `Int`.
* A send on a missing channel is swallowed by `send_to_node`
  (`server.py` line 197: `if node_id in self.connections`), so `send_to_node`
  emits an event only when the target is connected.
* `self.tasks[x]` / `self.nodes[x]` subscripting raises `KeyError` when the
  key is absent; we model every such subscript by an `Option` lookup, and a
  handler whose subscript would raise returns `none`.
* `assign_log` is a ghost history variable: it records, in order, every
  pop-and-assign hand-out performed at `server.py` lines 176-181 (the task
  id popped and the node it was assigned to), whether or not the subsequent
  send succeeded.  It is written exactly there and read nowhere, so it does
  not influence the behaviour of any operation.
-/

namespace Coordinator

/-- Status of a compute node.  The source stores the strings
`"connected"` / `"disconnected"` in `ComputeNode.status`. -/
inductive NodeStatus where
  | connected
  | disconnected
deriving DecidableEq, Repr

/-- Lifecycle status of a task.  The source stores the strings
`"pending"`, `"assigned"`, `"completed"`, `"failed"` in `ComputeTask.status`. -/
inductive TaskStatus where
  | pending
  | assigned
  | completed
  | failed
deriving DecidableEq, Repr

/-- `ComputeNode` dataclass of `server.py` (lines 24-38).
`last_seen` is an opaque timestamp (`Nat`); `performance_score` is an
opaque number (`Int`), never computed with. -/
structure ComputeNode where
  node_id : String
  ip_address : String
  status : NodeStatus
  last_seen : Nat
  tasks_completed : Nat
  capabilities : List String
  performance_score : Int
  kubernetes_registered : Bool
  slurm_registered : Bool
deriving DecidableEq, Repr

/-- `ComputeTask` dataclass of `server.py` (lines 40-53).  `data` and
`result` are opaque payloads, modelled as `String` / `Option String`.
The `created_at` wall-clock field is omitted: no coordinator logic reads
it (the queue tie-break comes from sort stability, not timestamps). -/
structure ComputeTask where
  task_id : Nat
  task_type : String
  data : String
  priority : Int
  assigned_to : Option String
  status : TaskStatus
  result : Option String
deriving DecidableEq, Repr

/-- Messages sent from the coordinator to a node (see §6 of the spec and
the `json.dumps` call sites in `server.py`). -/
inductive Msg where
  | welcome (node_id : String)
  | heartbeat_ack
  | task_ack (task_id : Nat)
  | no_tasks
  | task_assignment (task_id : Nat) (task_type : String) (data : String) (priority : Int)
  | cluster_registration (cluster_type : String) (reg_status : String)
deriving DecidableEq, Repr

/-- An outbound send: target node id paired with the message. -/
abbrev Event := String × Msg

/-- Lookup in an association list (models Python `d.get(k)` / `d[k]`). -/
def lookupA {α β : Type} [DecidableEq α] : List (α × β) → α → Option β
  | [], _ => none
  | (k, v) :: rest, key => if k = key then some v else lookupA rest key

/-- In-place update of the value stored at `key` (models Python mutation of
`d[key]`); a no-op when the key is absent. -/
def updateA {α β : Type} [DecidableEq α] (key : α) (f : β → β) : List (α × β) → List (α × β)
  | [] => []
  | (k, v) :: rest => if k = key then (k, f v) :: rest else (k, v) :: updateA key f rest

/-- Full state of the `ClusterCoordinator` object (`server.py` lines 55-63).
The three availability booleans are the results of the startup probes
(`check_kubernetes_cluster`, `check_slurm_cluster`, `check_munge_service`),
fixed for the process lifetime.  `next_id` and `assign_log` are the ghost
devices described in the file header. -/
structure CoordState where
  kubernetes_available : Bool
  slurm_available : Bool
  munge_available : Bool
  nodes : List (String × ComputeNode)
  tasks : List (Nat × ComputeTask)
  task_queue : List Nat
  connections : List String
  next_id : Nat
  assign_log : List (Nat × String)
deriving DecidableEq, Repr

/-- Node identity derived from the peer address (`server.py` line 77:
`f"android-{node_ip.replace('.', '-')}"`; the single-character replace is
modelled character-wise). -/
def nodeIdOf (ip : String) : String :=
  "android-" ++ String.mk (ip.data.map (fun c => if c = '.' then '-' else c))

/-- `send_to_node` (`server.py` lines 195-201): emits the message only when
the target has a live channel; otherwise the send is silently skipped. -/
def send_to_node (s : CoordState) (node_id : String) (m : Msg) : List Event :=
  if node_id ∈ s.connections then [(node_id, m)] else []

/-- Priority sort key of `add_task` (`server.py` line 220:
`key=lambda tid: self.tasks[tid].priority`).  The `getD 0` default is never
hit on reachable states, where every queued id is a key of `tasks`. -/
def prioOf (tasks : List (Nat × ComputeTask)) (tid : Nat) : Int :=
  ((lookupA tasks tid).map ComputeTask.priority).getD 0

/-- One insertion step of a stable descending-priority sort.  The sorted
suffix holds only elements that occurred later in the input, so `x` (the
earlier element) skips past `y` only when `y`'s priority is strictly
higher; on equal priority `x` stays in front, preserving input order. -/
def insertTask (p : Nat → Int) (x : Nat) : List Nat → List Nat
  | [] => [x]
  | y :: ys => if p y > p x then y :: insertTask p x ys else x :: y :: ys

/-- Stable sort by priority descending.  Models
`self.task_queue.sort(key=..., reverse=True)` (`server.py` line 220):
Python's sort is stable and `reverse=True` preserves stability, and any two
stable sorts under the same key agree. -/
def sortByPrio (p : Nat → Int) : List Nat → List Nat
  | [] => []
  | x :: xs => insertTask p x (sortByPrio p xs)

/-- The `ComputeTask` record as constructed by `ClusterCoordinator.add_task`
(`server.py` lines 208-217): a fresh pending task with no assignee and no
result. -/
def newTask (task_type : String) (data : String) (priority : Int) (task_id : Nat) :
    ComputeTask :=
  { task_id := task_id, task_type := task_type, data := data, priority := priority,
    assigned_to := none, status := .pending, result := none }

/-- `ClusterCoordinator.add_task` continued: create the pending task under
a fresh id, append the id to the queue, then re-sort the whole queue by
priority descending with the stable sort. -/
def add_task (task_type : String) (data : String) (priority : Int) (s : CoordState) :
    Nat × CoordState :=
  let task_id := s.next_id
  let task := newTask task_type data priority task_id
  let tasks' := s.tasks ++ [(task_id, task)]
  (task_id,
   { s with next_id := task_id + 1, tasks := tasks',
            task_queue := sortByPrio (prioOf tasks') (s.task_queue ++ [task_id]) })

/-- `ClusterCoordinator.assign_task` (`server.py` lines 166-193): with an
empty queue, reply `no_tasks` and change nothing; otherwise pop the queue
head, mark it assigned to `node_id`, record the hand-out in the ghost log,
and send the `task_assignment` message. -/
def assign_task (node_id : String) (s : CoordState) : Option (CoordState × List Event) :=
  match s.task_queue with
  | [] => some (s, send_to_node s node_id .no_tasks)
  | task_id :: rest =>
    match lookupA s.tasks task_id with
    | none => none
    | some task =>
      let s' : CoordState := { s with
        task_queue := rest,
        tasks := updateA task_id
          (fun t => { t with assigned_to := some node_id, status := .assigned }) s.tasks,
        assign_log := s.assign_log ++ [(task_id, node_id)] }
      some (s', send_to_node s' node_id
        (.task_assignment task_id task.task_type task.data task.priority))

/-- `ClusterCoordinator.handle_task_result` (`server.py` lines 145-164).
`success` is `message.get("success", True)`, hence `Option Bool` with
default `true`.  An unknown task id falls through the `if task_id in
self.tasks` guard: nothing is mutated and nothing is sent.  For a known
task the status is overwritten (no current-status check in the source),
the result stored, the reporting node's counter incremented
(`self.nodes[node_id]` raises if the node is unknown), and `task_ack` sent. -/
def handle_task_result (node_id : String) (task_id : Nat) (result : String)
    (success : Option Bool) (s : CoordState) : Option (CoordState × List Event) :=
  let ok := success.getD true
  match lookupA s.tasks task_id with
  | none => some (s, [])
  | some _ =>
    match lookupA s.nodes node_id with
    | none => none
    | some _ =>
      let s' : CoordState := { s with
        tasks := updateA task_id
          (fun t => { t with status := if ok then .completed else .failed,
                             result := some result }) s.tasks,
        nodes := updateA node_id
          (fun n => { n with tasks_completed := n.tasks_completed + 1 }) s.nodes }
      some (s', send_to_node s' node_id (.task_ack task_id))

/-- Inbound node → server messages (`handle_message` dispatch,
`server.py` lines 124-143).  `heartbeat` carries the `time.time()` value
observed at handling; `task_result.success` is optional (missing means
default `true`). -/
inductive InMsg where
  | heartbeat (now : Nat)
  | capabilities (caps : List String)
  | task_result (task_id : Nat) (result : String) (success : Option Bool)
  | performance_update (score : Int)
  | request_task
deriving DecidableEq, Repr

/-- `ClusterCoordinator.handle_message` (`server.py` lines 124-143):
dispatch on the `type` discriminator.  `heartbeat`, `capabilities` and
`performance_update` subscript `self.nodes[node_id]` directly (raising on
an unknown node); `task_result` and `request_task` delegate. -/
def handle_message (node_id : String) (m : InMsg) (s : CoordState) :
    Option (CoordState × List Event) :=
  match m with
  | .heartbeat now =>
    match lookupA s.nodes node_id with
    | none => none
    | some _ =>
      let s' : CoordState :=
        { s with nodes := updateA node_id (fun n => { n with last_seen := now }) s.nodes }
      some (s', send_to_node s' node_id .heartbeat_ack)
  | .capabilities caps =>
    match lookupA s.nodes node_id with
    | none => none
    | some _ =>
      some ({ s with nodes := updateA node_id (fun n => { n with capabilities := caps }) s.nodes },
            [])
  | .task_result task_id result success => handle_task_result node_id task_id result success s
  | .performance_update score =>
    match lookupA s.nodes node_id with
    | none => none
    | some _ =>
      some ({ s with
              nodes := updateA node_id (fun n => { n with performance_score := score }) s.nodes },
            [])
  | .request_task => assign_task node_id s

/-- Kubernetes half of `ClusterCoordinator.auto_register_to_clusters`
(`server.py` lines 283-294).  `node` is the record read once at the top of
the source function, `k8sOk` the outcome of the external
`register_to_kubernetes` call.  The backend is attempted only when
available and the node's flag is still unset; on success the flag is set
and a `cluster_registration` "registered" message is sent. -/
def k8s_register_step (node_id : String) (k8sOk : Bool) (node : ComputeNode)
    (s : CoordState) : CoordState × List Event :=
  if s.kubernetes_available ∧ ¬node.kubernetes_registered then
    if k8sOk then
      let s' : CoordState := { s with
        nodes := updateA node_id (fun n => { n with kubernetes_registered := true }) s.nodes }
      (s', send_to_node s' node_id (.cluster_registration "kubernetes" "registered"))
    else (s, [])
  else (s, [])

/-- SLURM half of `auto_register_to_clusters` (`server.py` lines 296-316):
attempted only when available and the flag is unset; without MUNGE a
"failed" message is sent and the flag left untouched. -/
def slurm_register_step (node_id : String) (slurmOk : Bool) (node : ComputeNode)
    (s : CoordState) : CoordState × List Event :=
  if s.slurm_available ∧ ¬node.slurm_registered then
    if s.munge_available then
      if slurmOk then
        let s' : CoordState := { s with
          nodes := updateA node_id (fun n => { n with slurm_registered := true }) s.nodes }
        (s', send_to_node s' node_id (.cluster_registration "slurm" "registered"))
      else (s, [])
    else (s, send_to_node s node_id (.cluster_registration "slurm" "failed"))
  else (s, [])

/-- `ClusterCoordinator.auto_register_to_clusters` (`server.py` lines
279-316): read the node record once, run the Kubernetes attempt, then the
SLURM attempt on the resulting state. -/
def auto_register_to_clusters (node_id : String) (k8sOk slurmOk : Bool) (s : CoordState) :
    Option (CoordState × List Event) :=
  match lookupA s.nodes node_id with
  | none => none
  | some node =>
    let r₁ := k8s_register_step node_id k8sOk node s
    let r₂ := slurm_register_step node_id slurmOk node r₁.1
    some (r₂.1, r₁.2 ++ r₂.2)

/-- Connect sequence of `ClusterCoordinator.register_handler`
(`server.py` lines 74-107): derive the node id, store the channel, create
the node record if unseen or else mark it connected and refresh last-seen,
send the welcome message, run auto-registration, and eagerly offer a task. -/
def register_handler (ip : String) (now : Nat) (k8sOk slurmOk : Bool) (s : CoordState) :
    Option (CoordState × List Event) :=
  let node_id := nodeIdOf ip
  let s₀ : CoordState := { s with
    connections := if node_id ∈ s.connections then s.connections else s.connections ++ [node_id] }
  let freshNode : ComputeNode :=
    { node_id := node_id, ip_address := ip, status := .connected, last_seen := now,
      tasks_completed := 0, capabilities := [], performance_score := 0,
      kubernetes_registered := false, slurm_registered := false }
  let s₁ : CoordState :=
    match lookupA s₀.nodes node_id with
    | none => { s₀ with nodes := s₀.nodes ++ [(node_id, freshNode)] }
    | some _ =>
      { s₀ with
        nodes := updateA node_id (fun n => { n with status := .connected, last_seen := now })
                   s₀.nodes }
  match auto_register_to_clusters node_id k8sOk slurmOk s₁ with
  | none => none
  | some (s₂, ev₁) =>
    match assign_task node_id s₂ with
    | none => none
    | some (s₃, ev₂) => some (s₃, (node_id, .welcome node_id) :: (ev₁ ++ ev₂))

/-- Channel-close cleanup of `register_handler` (`server.py` lines
117-122, the `finally` block): drop the channel mapping and mark the node
disconnected.  Both steps are guarded by membership tests in the source,
matching `List.erase` / `updateA` no-op behaviour on absent keys. -/
def on_disconnect (ip : String) (s : CoordState) : CoordState :=
  let node_id := nodeIdOf ip
  { s with
    connections := s.connections.erase node_id,
    nodes := updateA node_id (fun n => { n with status := .disconnected }) s.nodes }

/-- First node of the registry, in insertion order, whose status is
connected (`server.py` lines 592-595). -/
def firstConnected (s : CoordState) : Option String :=
  ((s.nodes.filter (fun p => p.2.status = .connected)).map Prod.fst).head?

/-- HTTP `submit_task_handler` (`server.py` lines 577-605): reject an
empty/missing `task_type` with a 400 (modelled as a no-op), otherwise
`add_task` and, when some node is connected, immediately call
`assign_task` on the first connected node in registry order — an
unsolicited assignment. -/
def submit_task_handler (task_type : String) (data : String) (priority : Int)
    (s : CoordState) : Option (CoordState × List Event) :=
  if task_type = "" then some (s, [])
  else
    let s₁ := (add_task task_type data priority s).2
    match firstConnected s₁ with
    | none => some (s₁, [])
    | some node_id => assign_task node_id s₁

/-- One externally triggered activity of the coordinator. -/
inductive Op where
  | connect (ip : String) (now : Nat) (k8sOk slurmOk : Bool)
  | disconnect (ip : String)
  | msg (ip : String) (m : InMsg)
  | http_submit (task_type : String) (data : String) (priority : Int)
deriving DecidableEq, Repr

/-- Execute one activity.  Inbound messages are dispatched under the node
identity derived from the peer address, exactly as `register_handler`'s
message loop does. -/
def step (s : CoordState) : Op → Option (CoordState × List Event)
  | .connect ip now k8sOk slurmOk => register_handler ip now k8sOk slurmOk s
  | .disconnect ip => some (on_disconnect ip s, [])
  | .msg ip m => handle_message (nodeIdOf ip) m s
  | .http_submit task_type data priority => submit_task_handler task_type data priority s

/-- Run a sequence of activities, accumulating all sent messages. -/
def run (s : CoordState) : List Op → Option (CoordState × List Event)
  | [] => some (s, [])
  | op :: rest =>
    match step s op with
    | none => none
    | some (s₁, ev₁) =>
      match run s₁ rest with
      | none => none
      | some (s₂, ev₂) => some (s₂, ev₁ ++ ev₂)

/-- Coordinator state at startup (`ClusterCoordinator.__init__`,
`server.py` lines 56-63), parameterised by the three probe results. -/
def init (k8s slurm munge : Bool) : CoordState :=
  { kubernetes_available := k8s, slurm_available := slurm, munge_available := munge,
    nodes := [], tasks := [], task_queue := [], connections := [],
    next_id := 0, assign_log := [] }

/-- Status of the task `tid` in state `s` (`none` when the id is unknown). -/
def taskStatus (s : CoordState) (tid : Nat) : Option TaskStatus :=
  (lookupA s.tasks tid).map ComputeTask.status

/-- Frame predicate: `s'` agrees with `s` on everything the coordinator
invariant depends on (tasks, queue, ghost log, id counter, connections,
node key set, probe results); only node record contents may differ. -/
def SameCore (s' s : CoordState) : Prop :=
  s'.tasks = s.tasks ∧ s'.task_queue = s.task_queue ∧ s'.assign_log = s.assign_log ∧
  s'.next_id = s.next_id ∧ s'.connections = s.connections ∧
  s'.nodes.map Prod.fst = s.nodes.map Prod.fst ∧
  s'.kubernetes_available = s.kubernetes_available ∧
  s'.slurm_available = s.slurm_available ∧ s'.munge_available = s.munge_available

/-- Placement of the most recently appended element under the stable
re-sort: it goes after every element of priority greater than or equal to
its own. -/
def insertLast (p : Nat → Int) (x : Nat) : List Nat → List Nat
  | [] => [x]
  | y :: ys => if p y ≥ p x then y :: insertLast p x ys else x :: y :: ys

/-- Strict queue order maintained by the coordinator: higher priority
first; equal priorities ordered by task id, which equals submission
order. -/
def qltP (p : Nat → Int) (a b : Nat) : Prop :=
  p b < p a ∨ (p a = p b ∧ a < b)

instance (p : Nat → Int) (a b : Nat) : Decidable (qltP p a b) := by
  unfold qltP
  exact inferInstance

/-- Task ids carried by `task_assignment` messages in an event list. -/
def assignIds (ev : List Event) : List Nat :=
  ev.filterMap (fun e =>
    match e.2 with
    | .task_assignment tid _ _ _ => some tid
    | _ => none)

/-- Status evolution a single activity may cause for one task id, at
operation granularity: stay put, be created pending (a submission), be
created and immediately assigned (an HTTP submission with a connected
node can pop the task it just created), move pending to assigned
(assignment), or move assigned to completed or failed (a task result).
Everything else — in particular any move back to pending, any change
after completed or failed, and assignment of a non-pending task — is
ruled out. -/
def statusOkB : Option TaskStatus → Option TaskStatus → Bool
  | none, none => true
  | none, some .pending => true
  | none, some .assigned => true
  | some .pending, some .pending => true
  | some .pending, some .assigned => true
  | some .assigned, some .assigned => true
  | some .assigned, some .completed => true
  | some .assigned, some .failed => true
  | some .completed, some .completed => true
  | some .failed, some .failed => true
  | _, _ => false

/-- A result-bearing activity is well-targeted in state `s` when the task
it names is unknown or currently assigned; all other activities are
unconstrained. -/
def goodOpB (s : CoordState) : Op → Bool
  | .msg _ (.task_result tid _ _) =>
    match taskStatus s tid with
    | none => true
    | some .assigned => true
    | _ => false
  | _ => true

/-- Every `task_result` along the trace names, at its point of execution,
an unknown or currently-assigned task. -/
def goodTraceB (s : CoordState) : List Op → Bool
  | [] => true
  | op :: rest =>
    goodOpB s op &&
      match step s op with
      | none => true
      | some (s', _) => goodTraceB s' rest

/-- Every queued task currently has status pending (holds on good
traces). -/
def InvG (s : CoordState) : Prop :=
  ∀ id ∈ s.task_queue, taskStatus s id = some .pending

/-- Reachability invariant of the coordinator state (established at
startup, preserved by every activity).  `assign_log` is the ghost hand-out
history, so `qNotLogged`/`logNodup` together say a queued task has never
been handed out and no task is ever handed out twice. -/
structure Inv (s : CoordState) : Prop where
  qNodup : s.task_queue.Nodup
  qLt : ∀ id ∈ s.task_queue, id < s.next_id
  qNotLogged : ∀ id ∈ s.task_queue, id ∉ s.assign_log.map Prod.fst
  logNodup : (s.assign_log.map Prod.fst).Nodup
  logLt : ∀ id ∈ s.assign_log.map Prod.fst, id < s.next_id
  tKeysLt : ∀ k ∈ s.tasks.map Prod.fst, k < s.next_id
  qInTasks : ∀ id ∈ s.task_queue, ∃ t, lookupA s.tasks id = some t ∧ t.status ≠ .assigned
  pendingInQ : ∀ k t, lookupA s.tasks k = some t → t.status = .pending → k ∈ s.task_queue
  assignedOk : ∀ k t, lookupA s.tasks k = some t → t.status = .assigned →
    ∃ nid, t.assigned_to = some nid ∧ nid ≠ ""
  qSorted : s.task_queue.Pairwise (qltP (prioOf s.tasks))
  nodeKeys : ∀ k ∈ s.nodes.map Prod.fst, k ≠ ""

end Coordinator

namespace Coordinator

/-! ### Association-list lemmas -/

theorem lookupA_updateA_self {β : Type} [DecidableEq α] (l : List (α × β)) (k : α) (f : β → β) :
    lookupA (updateA k f l) k = (lookupA l k).map f := by
  induction l with
  | nil => rfl
  | cons hd tl ih =>
    obtain ⟨k', v⟩ := hd
    by_cases h : k' = k <;> simp [lookupA, updateA, h, ih]

theorem lookupA_updateA_ne {β : Type} [DecidableEq α] (l : List (α × β)) {k k' : α}
    (f : β → β) (h : k' ≠ k) : lookupA (updateA k f l) k' = lookupA l k' := by
  induction l with
  | nil => rfl
  | cons hd tl ih =>
    obtain ⟨k₀, v⟩ := hd
    by_cases h0 : k₀ = k
    · subst h0
      simp [lookupA, updateA, Ne.symm h]
    · by_cases h1 : k₀ = k' <;> simp [lookupA, updateA, h0, h1, h, ih]

theorem keys_updateA {β : Type} [DecidableEq α] (l : List (α × β)) (k : α) (f : β → β) :
    (updateA k f l).map Prod.fst = l.map Prod.fst := by
  induction l with
  | nil => rfl
  | cons hd tl ih =>
    obtain ⟨k₀, v⟩ := hd
    by_cases h : k₀ = k <;> simp [updateA, h, ih]

theorem lookupA_append {β : Type} [DecidableEq α] (l m : List (α × β)) (k : α) :
    lookupA (l ++ m) k =
      match lookupA l k with
      | some v => some v
      | none => lookupA m k := by
  induction l with
  | nil => rfl
  | cons hd tl ih =>
    obtain ⟨k₀, v⟩ := hd
    by_cases h : k₀ = k <;> simp [lookupA, h, ih]

theorem lookupA_eq_none {β : Type} [DecidableEq α] {l : List (α × β)} {k : α}
    (h : k ∉ l.map Prod.fst) : lookupA l k = none := by
  induction l with
  | nil => rfl
  | cons hd tl ih =>
    obtain ⟨k₀, v⟩ := hd
    simp only [List.map_cons, List.mem_cons] at h
    push_neg at h
    simp [lookupA, Ne.symm h.1, ih h.2]

theorem mem_keys_of_lookupA {β : Type} [DecidableEq α] {l : List (α × β)} {k : α} {v : β}
    (h : lookupA l k = some v) : k ∈ l.map Prod.fst := by
  by_contra hmem
  rw [lookupA_eq_none hmem] at h
  exact Option.noConfusion h

end Coordinator

namespace Coordinator

/-! ### Stable-sort lemmas

`sortByPrio` inserts elements from the left into the sorted image of the
suffix, so the last element of the input ends up *after* every
equal-priority element.  `insertLast` is that placement, used to describe
the effect of one `add_task` re-sort on an already sorted queue. -/

theorem insertTask_perm (p : Nat → Int) (x : Nat) (l : List Nat) :
    List.Perm (insertTask p x l) (x :: l) := by
  induction l with
  | nil => rfl
  | cons y ys ih =>
    by_cases h : p y > p x
    · simpa [insertTask, h] using ((ih.cons y).trans (List.Perm.swap x y ys))
    · simp [insertTask, h]

theorem sortByPrio_perm (p : Nat → Int) (l : List Nat) : List.Perm (sortByPrio p l) l := by
  induction l with
  | nil => rfl
  | cons x xs ih => exact (insertTask_perm p x (sortByPrio p xs)).trans (ih.cons x)

theorem insertLast_perm (p : Nat → Int) (x : Nat) (l : List Nat) :
    List.Perm (insertLast p x l) (x :: l) := by
  induction l with
  | nil => rfl
  | cons y ys ih =>
    by_cases h : p y ≥ p x
    · simpa [insertLast, h] using ((ih.cons y).trans (List.Perm.swap x y ys))
    · simp [insertLast, h]

/-- Re-sorting a sorted-by-priority queue with one appended element just
walks that element to the end of its priority class. -/
theorem sortByPrio_append_single (p : Nat → Int) (x : Nat) :
    ∀ l : List Nat, l.Pairwise (fun a b => p b ≤ p a) →
      sortByPrio p (l ++ [x]) = insertLast p x l := by
  intro l
  induction l with
  | nil => intro _; rfl
  | cons a l' ih =>
    intro hs
    rw [List.pairwise_cons] at hs
    obtain ⟨ha, hs'⟩ := hs
    have step0 : sortByPrio p ((a :: l') ++ [x]) = insertTask p a (sortByPrio p (l' ++ [x])) :=
      rfl
    rw [step0, ih hs']
    by_cases hax : p a ≥ p x
    · -- `a` keeps the head position: everything in `insertLast p x l'` has
      -- priority at most `p a`.
      have hhead : insertTask p a (insertLast p x l') = a :: insertLast p x l' := by
        cases l' with
        | nil => simp [insertLast, insertTask, not_lt.mpr hax]
        | cons h t =>
          by_cases hh : p h ≥ p x
          · have : ¬ p h > p a := not_lt.mpr (ha h (List.mem_cons_self h t))
            simp [insertLast, hh, insertTask, this]
          · simp [insertLast, hh, insertTask, not_lt.mpr hax]
      rw [hhead, insertLast, if_pos hax]
    · -- `x` outranks `a`, hence everything: it moves to the front.
      push_neg at hax
      have hall : ∀ y ∈ l', p y < p x := fun y hy => lt_of_le_of_lt (ha y hy) hax
      have hx1 : insertLast p x l' = x :: l' := by
        cases l' with
        | nil => rfl
        | cons h t => simp [insertLast, not_le.mpr (hall h (List.mem_cons_self h t))]
      have hx2 : insertTask p a l' = a :: l' := by
        cases l' with
        | nil => rfl
        | cons h t => simp [insertTask, not_lt.mpr (ha h (List.mem_cons_self h t))]
      rw [hx1, insertTask, if_pos hax, hx2, insertLast, if_neg (not_le.mpr hax)]

/-- Inserting a fresh maximal id into a strictly ordered queue keeps it
strictly ordered. -/
theorem insertLast_pairwise (p : Nat → Int) (x : Nat) :
    ∀ l : List Nat, l.Pairwise (qltP p) → (∀ y ∈ l, y < x) →
      (insertLast p x l).Pairwise (qltP p) := by
  intro l
  induction l with
  | nil => intro _ _; simp [insertLast]
  | cons a l' ih =>
    intro hs hfresh
    rw [List.pairwise_cons] at hs
    obtain ⟨ha, hs'⟩ := hs
    by_cases hax : p a ≥ p x
    · rw [insertLast, if_pos hax, List.pairwise_cons]
      refine ⟨?_, ih hs' (fun y hy => hfresh y (List.mem_cons_of_mem a hy))⟩
      intro z hz
      have hz' : z = x ∨ z ∈ l' :=
        List.mem_cons.mp ((insertLast_perm p x l').mem_iff.mp hz)
      rcases hz' with rfl | hz'
      · rcases lt_or_eq_of_le hax with hlt | heq
        · exact Or.inl hlt
        · exact Or.inr ⟨heq.symm, hfresh a (List.mem_cons_self a l')⟩
      · exact ha z hz'
    · push_neg at hax
      rw [insertLast, if_neg (not_le.mpr hax), List.pairwise_cons]
      refine ⟨?_, List.pairwise_cons.mpr ⟨ha, hs'⟩⟩
      intro z hz
      rcases List.mem_cons.mp hz with rfl | hz'
      · exact Or.inl hax
      · have : p z ≤ p a := by
          rcases ha z hz' with h | h
          · exact le_of_lt h
          · exact le_of_eq h.1.symm
        exact Or.inl (lt_of_le_of_lt this hax)

/-- The strict queue order implies the plain priority-descending order. -/
theorem pairwise_le_of_qltP (p : Nat → Int) (l : List Nat)
    (h : l.Pairwise (qltP p)) : l.Pairwise (fun a b => p b ≤ p a) := by
  refine h.imp ?_
  intro a b hab
  rcases hab with h1 | h2
  · exact le_of_lt h1
  · exact le_of_eq h2.1.symm

end Coordinator

namespace Coordinator

/-! ### The coordinator invariant -/

/-- The invariant only looks at tasks, queue, log, id counter and the node
key set, so it transfers across any step that fixes those. -/
theorem Inv.transfer {s s' : CoordState} (hI : Inv s)
    (ht : s'.tasks = s.tasks) (hq : s'.task_queue = s.task_queue)
    (hl : s'.assign_log = s.assign_log) (hn : s'.next_id = s.next_id)
    (hk : ∀ k ∈ s'.nodes.map Prod.fst, k ≠ "") : Inv s' := by
  refine ⟨?_, ?_, ?_, ?_, ?_, ?_, ?_, ?_, ?_, ?_, ?_⟩
  · rw [hq]; exact hI.qNodup
  · rw [hq, hn]; exact hI.qLt
  · rw [hq, hl]; exact hI.qNotLogged
  · rw [hl]; exact hI.logNodup
  · rw [hl, hn]; exact hI.logLt
  · rw [ht, hn]; exact hI.tKeysLt
  · rw [hq, ht]; exact hI.qInTasks
  · rw [ht, hq]; exact hI.pendingInQ
  · rw [ht]; exact hI.assignedOk
  · rw [hq, ht]; exact hI.qSorted
  · exact hk

theorem prioOf_updateA (tasks : List (Nat × ComputeTask)) (k : Nat) (f : ComputeTask → ComputeTask)
    (hf : ∀ t, (f t).priority = t.priority) (tid : Nat) :
    prioOf (updateA k f tasks) tid = prioOf tasks tid := by
  by_cases h : tid = k
  · subst h
    rw [prioOf, prioOf, lookupA_updateA_self]
    cases lookupA tasks tid <;> simp [hf]
  · rw [prioOf, prioOf, lookupA_updateA_ne _ _ h]

theorem prioOf_append_of_some (tasks m : List (Nat × ComputeTask)) (tid : Nat)
    {t : ComputeTask} (h : lookupA tasks tid = some t) :
    prioOf (tasks ++ m) tid = prioOf tasks tid := by
  rw [prioOf, prioOf, lookupA_append, h]

theorem lookupA_append_of_some {β : Type} [DecidableEq α] {l : List (α × β)}
    (m : List (α × β)) {k : α} {v : β} (h : lookupA l k = some v) :
    lookupA (l ++ m) k = some v := by
  rw [lookupA_append, h]

theorem pairwise_qltP_congr {p p' : Nat → Int} {l : List Nat}
    (h : l.Pairwise (qltP p)) (he : ∀ a ∈ l, p a = p' a) : l.Pairwise (qltP p') := by
  refine List.Pairwise.imp_of_mem ?_ h
  intro a b ha hb hab
  rw [qltP, ← he a ha, ← he b hb]
  exact hab

theorem nodeIdOf_ne_empty (ip : String) : nodeIdOf ip ≠ "" := by
  intro h
  have hlen := congrArg String.length h
  rw [nodeIdOf, String.length_append] at hlen
  have h8 : ("android-" : String).length = 8 := rfl
  have h0 : ("" : String).length = 0 := rfl
  rw [h8, h0] at hlen
  omega

/-- `assign_task` preserves the invariant whenever the requesting node id
is non-empty (every caller passes a registry key or a derived
`android-...` identity). -/
theorem inv_assign_task {s s' : CoordState} {nid : String} {ev : List Event}
    (hI : Inv s) (hnid : nid ≠ "")
    (h : assign_task nid s = some (s', ev)) : Inv s' := by
  cases hq : s.task_queue with
  | nil =>
    simp only [assign_task, hq, Option.some.injEq, Prod.mk.injEq] at h
    obtain ⟨rfl, -⟩ := h
    exact hI
  | cons tid rest =>
    have htid : tid ∈ s.task_queue := by rw [hq]; exact List.mem_cons_self tid rest
    obtain ⟨t, ht, -⟩ := hI.qInTasks tid htid
    simp only [assign_task, hq, ht, Option.some.injEq, Prod.mk.injEq] at h
    obtain ⟨rfl, -⟩ := h
    have hNd := hI.qNodup
    rw [hq, List.nodup_cons] at hNd
    obtain ⟨htidrest, hrestNd⟩ := hNd
    have hmemrest : ∀ id ∈ rest, id ∈ s.task_queue := by
      intro id hid; rw [hq]; exact List.mem_cons_of_mem tid hid
    refine ⟨hrestNd, ?_, ?_, ?_, ?_, ?_, ?_, ?_, ?_, ?_, ?_⟩ <;> dsimp only
    · intro id hid
      exact hI.qLt id (hmemrest id hid)
    · intro id hid
      simp only [List.map_append, List.map_cons, List.map_nil, List.mem_append,
        List.mem_singleton]
      push_neg
      exact ⟨hI.qNotLogged id (hmemrest id hid), fun hcontra => htidrest (hcontra ▸ hid)⟩
    · simp only [List.map_append, List.map_cons, List.map_nil]
      rw [List.nodup_append]
      exact ⟨hI.logNodup, List.nodup_singleton tid,
        fun a ha hb => (List.mem_singleton.mp hb ▸ hI.qNotLogged tid htid) ha⟩
    · intro id hid
      simp only [List.map_append, List.map_cons, List.map_nil, List.mem_append,
        List.mem_singleton] at hid
      rcases hid with hid | rfl
      · exact hI.logLt id hid
      · exact hI.qLt id htid
    · intro k hk
      rw [keys_updateA] at hk
      exact hI.tKeysLt k hk
    · intro id hid
      obtain ⟨t', ht', hts'⟩ := hI.qInTasks id (hmemrest id hid)
      have hne : id ≠ tid := fun hcontra => htidrest (hcontra ▸ hid)
      exact ⟨t', by rw [lookupA_updateA_ne _ _ hne]; exact ht', hts'⟩
    · intro k t' hk hpend
      by_cases hkt : k = tid
      · subst hkt
        rw [lookupA_updateA_self, ht] at hk
        simp only [Option.map_some', Option.some.injEq] at hk
        rw [← hk] at hpend
        exact absurd hpend (by simp)
      · rw [lookupA_updateA_ne _ _ hkt] at hk
        have := hI.pendingInQ k t' hk hpend
        rw [hq] at this
        rcases List.mem_cons.mp this with rfl | hmem
        · exact absurd rfl hkt
        · exact hmem
    · intro k t' hk hassigned
      by_cases hkt : k = tid
      · subst hkt
        rw [lookupA_updateA_self, ht] at hk
        simp only [Option.map_some', Option.some.injEq] at hk
        exact ⟨nid, by rw [← hk], hnid⟩
      · rw [lookupA_updateA_ne _ _ hkt] at hk
        exact hI.assignedOk k t' hk hassigned
    · have hsorted := hI.qSorted
      rw [hq, List.pairwise_cons] at hsorted
      refine pairwise_qltP_congr hsorted.2 ?_
      intro a _
      exact (prioOf_updateA s.tasks tid
        (fun t => { t with assigned_to := some nid, status := TaskStatus.assigned })
        (fun t => rfl) a).symm
    · exact hI.nodeKeys

/-- `add_task` preserves the invariant. -/
theorem inv_add_task {s : CoordState} (tt d : String) (p : Int) (hI : Inv s) :
    Inv (add_task tt d p s).2 := by
  have hD : (add_task tt d p s).2 =
      { s with next_id := s.next_id + 1,
               tasks := s.tasks ++ [(s.next_id, newTask tt d p s.next_id)],
               task_queue :=
                 sortByPrio (prioOf (s.tasks ++ [(s.next_id, newTask tt d p s.next_id)]))
                   (s.task_queue ++ [s.next_id]) } := rfl
  rw [hD]
  have hfresh : lookupA s.tasks s.next_id = none := by
    refine lookupA_eq_none ?_
    intro hmem
    exact absurd (hI.tKeysLt s.next_id hmem) (lt_irrefl s.next_id)
  have hnew : lookupA (s.tasks ++ [(s.next_id, newTask tt d p s.next_id)]) s.next_id =
      some (newTask tt d p s.next_id) := by
    rw [lookupA_append, hfresh]
    simp [lookupA]
  have hold : ∀ k, k ≠ s.next_id →
      lookupA (s.tasks ++ [(s.next_id, newTask tt d p s.next_id)]) k = lookupA s.tasks k := by
    intro k hk
    rw [lookupA_append]
    cases hc : lookupA s.tasks k with
    | some v => rfl
    | none => simp [lookupA, Ne.symm hk]
  have hprio : ∀ a ∈ s.task_queue,
      prioOf s.tasks a = prioOf (s.tasks ++ [(s.next_id, newTask tt d p s.next_id)]) a := by
    intro a ha
    obtain ⟨t', ht', -⟩ := hI.qInTasks a ha
    exact (prioOf_append_of_some s.tasks _ a ht').symm
  have hqperm : List.Perm
      (sortByPrio (prioOf (s.tasks ++ [(s.next_id, newTask tt d p s.next_id)]))
        (s.task_queue ++ [s.next_id]))
      (s.task_queue ++ [s.next_id]) := sortByPrio_perm _ _
  have hqmem : ∀ id,
      id ∈ sortByPrio (prioOf (s.tasks ++ [(s.next_id, newTask tt d p s.next_id)]))
          (s.task_queue ++ [s.next_id]) ↔ id ∈ s.task_queue ∨ id = s.next_id := by
    intro id
    rw [hqperm.mem_iff]
    simp
  have hqfresh : s.next_id ∉ s.task_queue := fun hmem =>
    absurd (hI.qLt s.next_id hmem) (lt_irrefl s.next_id)
  refine ⟨?_, ?_, ?_, ?_, ?_, ?_, ?_, ?_, ?_, ?_, ?_⟩ <;> dsimp only
  · rw [hqperm.nodup_iff, List.nodup_append]
    exact ⟨hI.qNodup, List.nodup_singleton s.next_id,
      fun a ha hb => (List.mem_singleton.mp hb ▸ hqfresh) ha⟩
  · intro id hid
    rcases (hqmem id).mp hid with hmem | rfl
    · exact Nat.lt_succ_of_lt (hI.qLt id hmem)
    · exact Nat.lt_succ_self _
  · intro id hid
    rcases (hqmem id).mp hid with hmem | rfl
    · exact hI.qNotLogged id hmem
    · intro hlog
      exact absurd (hI.logLt _ hlog) (lt_irrefl _)
  · exact hI.logNodup
  · intro id hid
    exact Nat.lt_succ_of_lt (hI.logLt id hid)
  · intro k hk
    simp only [List.map_append, List.map_cons, List.map_nil, List.mem_append,
      List.mem_singleton] at hk
    rcases hk with hk | rfl
    · exact Nat.lt_succ_of_lt (hI.tKeysLt k hk)
    · exact Nat.lt_succ_self _
  · intro id hid
    rcases (hqmem id).mp hid with hmem | rfl
    · obtain ⟨t', ht', hts'⟩ := hI.qInTasks id hmem
      exact ⟨t', lookupA_append_of_some _ ht', hts'⟩
    · exact ⟨_, hnew, by simp [newTask]⟩
  · intro k t' hk hpend
    by_cases hkt : k = s.next_id
    · exact (hqmem k).mpr (Or.inr hkt)
    · rw [hold k hkt] at hk
      exact (hqmem k).mpr (Or.inl (hI.pendingInQ k t' hk hpend))
  · intro k t' hk hassigned
    by_cases hkt : k = s.next_id
    · subst hkt
      rw [hnew] at hk
      simp only [Option.some.injEq] at hk
      rw [← hk] at hassigned
      exact absurd hassigned (by simp [newTask])
    · rw [hold k hkt] at hk
      exact hI.assignedOk k t' hk hassigned
  · have hbase : s.task_queue.Pairwise
        (qltP (prioOf (s.tasks ++ [(s.next_id, newTask tt d p s.next_id)]))) :=
      pairwise_qltP_congr hI.qSorted hprio
    have hge := pairwise_le_of_qltP _ _ hbase
    rw [sortByPrio_append_single _ _ _ hge]
    exact insertLast_pairwise _ _ _ hbase (fun y hy => hI.qLt y hy)
  · exact hI.nodeKeys

end Coordinator

namespace Coordinator

/-! ### Invariant preservation for the remaining operations -/

theorem SameCore.refl (s : CoordState) : SameCore s s :=
  ⟨rfl, rfl, rfl, rfl, rfl, rfl, rfl, rfl, rfl⟩

theorem SameCore.trans {s₂ s₁ s : CoordState} (h₂ : SameCore s₂ s₁) (h₁ : SameCore s₁ s) :
    SameCore s₂ s := by
  obtain ⟨a2, b2, c2, d2, e2, f2, g2, h2', i2⟩ := h₂
  obtain ⟨a1, b1, c1, d1, e1, f1, g1, h1', i1⟩ := h₁
  exact ⟨a2.trans a1, b2.trans b1, c2.trans c1, d2.trans d1, e2.trans e1, f2.trans f1,
    g2.trans g1, h2'.trans h1', i2.trans i1⟩

theorem Inv.ofSameCore {s s' : CoordState} (hI : Inv s) (h : SameCore s' s) : Inv s' := by
  obtain ⟨ht, hq, hl, hn, -, hk, -, -, -⟩ := h
  refine hI.transfer ht hq hl hn ?_
  intro k hk0
  rw [hk] at hk0
  exact hI.nodeKeys k hk0

theorem nodeKeys_updateA {s : CoordState} (hI : Inv s) (key : String)
    (f : ComputeNode → ComputeNode) :
    ∀ k ∈ (updateA key f s.nodes).map Prod.fst, k ≠ "" := by
  intro k hk
  rw [keys_updateA] at hk
  exact hI.nodeKeys k hk

theorem k8s_register_step_core (node_id : String) (k8sOk : Bool) (node : ComputeNode)
    (s : CoordState) : SameCore (k8s_register_step node_id k8sOk node s).1 s := by
  unfold k8s_register_step
  split
  · split
    · exact ⟨rfl, rfl, rfl, rfl, rfl, keys_updateA _ _ _, rfl, rfl, rfl⟩
    · exact SameCore.refl s
  · exact SameCore.refl s

theorem slurm_register_step_core (node_id : String) (slurmOk : Bool) (node : ComputeNode)
    (s : CoordState) : SameCore (slurm_register_step node_id slurmOk node s).1 s := by
  unfold slurm_register_step
  split
  · split
    · split
      · exact ⟨rfl, rfl, rfl, rfl, rfl, keys_updateA _ _ _, rfl, rfl, rfl⟩
      · exact SameCore.refl s
    · exact SameCore.refl s
  · exact SameCore.refl s

theorem auto_register_core {s s' : CoordState} {nid : String} {k8sOk slurmOk : Bool}
    {ev : List Event}
    (h : auto_register_to_clusters nid k8sOk slurmOk s = some (s', ev)) : SameCore s' s := by
  cases hn : lookupA s.nodes nid with
  | none => simp [auto_register_to_clusters, hn] at h
  | some node =>
    simp only [auto_register_to_clusters, hn, Option.some.injEq, Prod.mk.injEq] at h
    obtain ⟨rfl, -⟩ := h
    exact (slurm_register_step_core nid slurmOk node _).trans
      (k8s_register_step_core nid k8sOk node s)

theorem inv_handle_task_result {s s' : CoordState} {nid : String} {tid : Nat} {res : String}
    {suc : Option Bool} {ev : List Event}
    (hI : Inv s) (h : handle_task_result nid tid res suc s = some (s', ev)) : Inv s' := by
  cases ht : lookupA s.tasks tid with
  | none =>
    simp only [handle_task_result, ht, Option.some.injEq, Prod.mk.injEq] at h
    obtain ⟨rfl, -⟩ := h
    exact hI
  | some t =>
    cases hn : lookupA s.nodes nid with
    | none => simp [handle_task_result, ht, hn] at h
    | some n =>
      simp only [handle_task_result, ht, hn, Option.some.injEq, Prod.mk.injEq] at h
      obtain ⟨rfl, -⟩ := h
      refine ⟨hI.qNodup, hI.qLt, hI.qNotLogged, hI.logNodup, hI.logLt, ?_, ?_, ?_, ?_, ?_,
        nodeKeys_updateA hI _ _⟩ <;> dsimp only
      · intro k hk
        rw [keys_updateA] at hk
        exact hI.tKeysLt k hk
      · intro id hid
        obtain ⟨t', ht', hts'⟩ := hI.qInTasks id hid
        by_cases hit : id = tid
        · subst hit
          set t2 : ComputeTask :=
            { t with
              status := if suc.getD true then TaskStatus.completed else TaskStatus.failed,
              result := some res } with ht2
          refine ⟨t2, ?_, ?_⟩
          · rw [lookupA_updateA_self, ht]
            rfl
          · rw [ht2]
            cases hok : suc.getD true <;> simp [hok]
        · exact ⟨t', by rw [lookupA_updateA_ne _ _ hit]; exact ht', hts'⟩
      · intro k t' hk hpend
        by_cases hkt : k = tid
        · subst hkt
          rw [lookupA_updateA_self, ht] at hk
          simp only [Option.map_some', Option.some.injEq] at hk
          rw [← hk] at hpend
          cases hok : suc.getD true <;> simp [hok] at hpend
        · rw [lookupA_updateA_ne _ _ hkt] at hk
          exact hI.pendingInQ k t' hk hpend
      · intro k t' hk hassigned
        by_cases hkt : k = tid
        · subst hkt
          rw [lookupA_updateA_self, ht] at hk
          simp only [Option.map_some', Option.some.injEq] at hk
          rw [← hk] at hassigned
          cases hok : suc.getD true <;> simp [hok] at hassigned
        · rw [lookupA_updateA_ne _ _ hkt] at hk
          exact hI.assignedOk k t' hk hassigned
      · refine pairwise_qltP_congr hI.qSorted ?_
        intro a _
        exact (prioOf_updateA s.tasks tid
          (fun t0 => { t0 with
            status := if suc.getD true then TaskStatus.completed else TaskStatus.failed,
            result := some res })
          (fun t0 => rfl) a).symm

theorem inv_handle_message {s s' : CoordState} {nid : String} {m : InMsg} {ev : List Event}
    (hI : Inv s) (hnid : nid ≠ "")
    (h : handle_message nid m s = some (s', ev)) : Inv s' := by
  cases m with
  | heartbeat now =>
    cases hn : lookupA s.nodes nid with
    | none => simp [handle_message, hn] at h
    | some n =>
      simp only [handle_message, hn, Option.some.injEq, Prod.mk.injEq] at h
      obtain ⟨rfl, -⟩ := h
      exact hI.transfer rfl rfl rfl rfl (nodeKeys_updateA hI _ _)
  | capabilities caps =>
    cases hn : lookupA s.nodes nid with
    | none => simp [handle_message, hn] at h
    | some n =>
      simp only [handle_message, hn, Option.some.injEq, Prod.mk.injEq] at h
      obtain ⟨rfl, -⟩ := h
      exact hI.transfer rfl rfl rfl rfl (nodeKeys_updateA hI _ _)
  | task_result tid res suc => exact inv_handle_task_result hI h
  | performance_update score =>
    cases hn : lookupA s.nodes nid with
    | none => simp [handle_message, hn] at h
    | some n =>
      simp only [handle_message, hn, Option.some.injEq, Prod.mk.injEq] at h
      obtain ⟨rfl, -⟩ := h
      exact hI.transfer rfl rfl rfl rfl (nodeKeys_updateA hI _ _)
  | request_task => exact inv_assign_task hI hnid h

theorem inv_register_handler {s s' : CoordState} {ip : String} {now : Nat}
    {k8sOk slurmOk : Bool} {ev : List Event} (hI : Inv s)
    (h : register_handler ip now k8sOk slurmOk s = some (s', ev)) : Inv s' := by
  unfold register_handler at h
  dsimp only at h
  cases hn : lookupA s.nodes (nodeIdOf ip) with
  | none =>
    simp only [hn] at h
    have hI1 : Inv { s with
        connections := if nodeIdOf ip ∈ s.connections then s.connections
          else s.connections ++ [nodeIdOf ip],
        nodes := s.nodes ++ [(nodeIdOf ip,
          { node_id := nodeIdOf ip, ip_address := ip, status := .connected, last_seen := now,
            tasks_completed := 0, capabilities := [], performance_score := 0,
            kubernetes_registered := false, slurm_registered := false })] } := by
      refine hI.transfer rfl rfl rfl rfl ?_
      intro k hk
      dsimp only at hk
      rw [List.map_append] at hk
      rcases List.mem_append.mp hk with hk | hk
      · exact hI.nodeKeys k hk
      · simp only [List.map_cons, List.map_nil, List.mem_singleton] at hk
        subst hk
        exact nodeIdOf_ne_empty ip
    split at h
    · simp at h
    · rename_i s₂ ev₁ hreg
      split at h
      · simp at h
      · rename_i s₃ ev₂ hassign
        simp only [Option.some.injEq, Prod.mk.injEq] at h
        obtain ⟨rfl, -⟩ := h
        exact inv_assign_task (hI1.ofSameCore (auto_register_core hreg))
          (nodeIdOf_ne_empty ip) hassign
  | some n0 =>
    simp only [hn] at h
    have hI1 : Inv { s with
        connections := if nodeIdOf ip ∈ s.connections then s.connections
          else s.connections ++ [nodeIdOf ip],
        nodes := updateA (nodeIdOf ip)
          (fun n => { n with status := .connected, last_seen := now }) s.nodes } :=
      hI.transfer rfl rfl rfl rfl (nodeKeys_updateA hI _ _)
    split at h
    · simp at h
    · rename_i s₂ ev₁ hreg
      split at h
      · simp at h
      · rename_i s₃ ev₂ hassign
        simp only [Option.some.injEq, Prod.mk.injEq] at h
        obtain ⟨rfl, -⟩ := h
        exact inv_assign_task (hI1.ofSameCore (auto_register_core hreg))
          (nodeIdOf_ne_empty ip) hassign

theorem inv_on_disconnect {s : CoordState} (ip : String) (hI : Inv s) :
    Inv (on_disconnect ip s) :=
  hI.transfer rfl rfl rfl rfl (nodeKeys_updateA hI _ _)

theorem firstConnected_ne_empty {s : CoordState} {nid : String} (hI : Inv s)
    (h : firstConnected s = some nid) : nid ≠ "" := by
  unfold firstConnected at h
  have hx : nid ∈ (s.nodes.filter (fun pr => pr.2.status = .connected)).map Prod.fst :=
    List.mem_of_mem_head? (Option.mem_def.mpr h)
  obtain ⟨pr, hpr, rfl⟩ := List.mem_map.mp hx
  exact hI.nodeKeys pr.1 (List.mem_map.mpr ⟨pr, List.mem_of_mem_filter hpr, rfl⟩)

theorem inv_submit {s s' : CoordState} {tt d : String} {p : Int} {ev : List Event}
    (hI : Inv s) (h : submit_task_handler tt d p s = some (s', ev)) : Inv s' := by
  unfold submit_task_handler at h
  by_cases htt : tt = ""
  · rw [if_pos htt] at h
    simp only [Option.some.injEq, Prod.mk.injEq] at h
    obtain ⟨rfl, -⟩ := h
    exact hI
  · rw [if_neg htt] at h
    dsimp only at h
    have hI1 : Inv (add_task tt d p s).2 := inv_add_task tt d p hI
    split at h
    case _ hfc =>
      simp only [Option.some.injEq, Prod.mk.injEq] at h
      obtain ⟨rfl, -⟩ := h
      exact hI1
    case _ nid hfc =>
      have hkeys : (add_task tt d p s).2.nodes = s.nodes := rfl
      exact inv_assign_task hI1 (firstConnected_ne_empty hI1 hfc) h

theorem inv_step {s s' : CoordState} {op : Op} {ev : List Event}
    (hI : Inv s) (h : step s op = some (s', ev)) : Inv s' := by
  cases op with
  | connect ip now k8sOk slurmOk => exact inv_register_handler hI h
  | disconnect ip =>
    simp only [step, Option.some.injEq, Prod.mk.injEq] at h
    obtain ⟨rfl, -⟩ := h
    exact inv_on_disconnect ip hI
  | msg ip m => exact inv_handle_message hI (nodeIdOf_ne_empty ip) h
  | http_submit tt d p => exact inv_submit hI h

theorem inv_run {s s' : CoordState} {ops : List Op} {ev : List Event}
    (hI : Inv s) (h : run s ops = some (s', ev)) : Inv s' := by
  induction ops generalizing s ev with
  | nil =>
    simp only [run, Option.some.injEq, Prod.mk.injEq] at h
    obtain ⟨rfl, -⟩ := h
    exact hI
  | cons op rest ih =>
    simp only [run] at h
    cases hstep : step s op with
    | none => rw [hstep] at h; exact absurd h (by simp)
    | some pr =>
      obtain ⟨s₁, ev₁⟩ := pr
      rw [hstep] at h
      dsimp only at h
      cases hrun : run s₁ rest with
      | none => rw [hrun] at h; exact absurd h (by simp)
      | some pr₂ =>
        obtain ⟨s₂, ev₂⟩ := pr₂
        rw [hrun] at h
        simp only [Option.some.injEq, Prod.mk.injEq] at h
        obtain ⟨rfl, -⟩ := h
        exact ih (inv_step hI hstep) hrun

theorem inv_init (k8s slurm munge : Bool) : Inv (init k8s slurm munge) := by
  refine ⟨?_, ?_, ?_, ?_, ?_, ?_, ?_, ?_, ?_, ?_, ?_⟩ <;> simp [init, lookupA]

end Coordinator

namespace Coordinator

/-! ### Hand-out log lemmas (toward at-most-once assignment) -/

theorem assignIds_append (a b : List Event) :
    assignIds (a ++ b) = assignIds a ++ assignIds b :=
  List.filterMap_append a b _

theorem assign_task_log {nid : String} {s s' : CoordState} {ev : List Event}
    (h : assign_task nid s = some (s', ev)) :
    ∃ δ, s'.assign_log = s.assign_log ++ δ ∧
      List.Sublist (assignIds ev) (δ.map Prod.fst) := by
  cases hq : s.task_queue with
  | nil =>
    simp only [assign_task, hq, Option.some.injEq, Prod.mk.injEq] at h
    obtain ⟨rfl, rfl⟩ := h
    refine ⟨[], by simp, ?_⟩
    unfold send_to_node
    split <;> simp [assignIds]
  | cons tid rest =>
    cases ht : lookupA s.tasks tid with
    | none => simp [assign_task, hq, ht] at h
    | some task =>
      simp only [assign_task, hq, ht, Option.some.injEq, Prod.mk.injEq] at h
      obtain ⟨rfl, rfl⟩ := h
      refine ⟨[(tid, nid)], rfl, ?_⟩
      unfold send_to_node
      split <;> simp [assignIds]

theorem handle_task_result_log {nid : String} {tid : Nat} {res : String} {suc : Option Bool}
    {s s' : CoordState} {ev : List Event}
    (h : handle_task_result nid tid res suc s = some (s', ev)) :
    s'.assign_log = s.assign_log ∧ assignIds ev = [] := by
  cases ht : lookupA s.tasks tid with
  | none =>
    simp only [handle_task_result, ht, Option.some.injEq, Prod.mk.injEq] at h
    obtain ⟨rfl, rfl⟩ := h
    exact ⟨rfl, rfl⟩
  | some t =>
    cases hn : lookupA s.nodes nid with
    | none => simp [handle_task_result, ht, hn] at h
    | some n =>
      simp only [handle_task_result, ht, hn, Option.some.injEq, Prod.mk.injEq] at h
      obtain ⟨rfl, rfl⟩ := h
      refine ⟨rfl, ?_⟩
      unfold send_to_node
      split <;> simp [assignIds]

theorem assignIds_k8s (node_id : String) (k8sOk : Bool) (node : ComputeNode)
    (s : CoordState) : assignIds (k8s_register_step node_id k8sOk node s).2 = [] := by
  unfold k8s_register_step
  split
  · split
    · dsimp only
      unfold send_to_node
      split <;> simp [assignIds]
    · rfl
  · rfl

theorem assignIds_slurm (node_id : String) (slurmOk : Bool) (node : ComputeNode)
    (s : CoordState) : assignIds (slurm_register_step node_id slurmOk node s).2 = [] := by
  unfold slurm_register_step
  split
  · split
    · split
      · dsimp only
        unfold send_to_node
        split <;> simp [assignIds]
      · rfl
    · unfold send_to_node
      split <;> simp [assignIds]
  · rfl

theorem auto_register_log {nid : String} {k8sOk slurmOk : Bool} {s s' : CoordState}
    {ev : List Event}
    (h : auto_register_to_clusters nid k8sOk slurmOk s = some (s', ev)) :
    assignIds ev = [] := by
  cases hn : lookupA s.nodes nid with
  | none => simp [auto_register_to_clusters, hn] at h
  | some node =>
    simp only [auto_register_to_clusters, hn, Option.some.injEq, Prod.mk.injEq] at h
    obtain ⟨-, rfl⟩ := h
    rw [assignIds_append, assignIds_k8s, assignIds_slurm]
    rfl

theorem register_handler_log {ip : String} {now : Nat} {k8sOk slurmOk : Bool}
    {s s' : CoordState} {ev : List Event}
    (h : register_handler ip now k8sOk slurmOk s = some (s', ev)) :
    ∃ δ, s'.assign_log = s.assign_log ++ δ ∧
      List.Sublist (assignIds ev) (δ.map Prod.fst) := by
  unfold register_handler at h
  dsimp only at h
  cases hn : lookupA s.nodes (nodeIdOf ip) <;> simp only [hn] at h <;>
  · split at h
    · simp at h
    · rename_i s₂ ev₁ hreg
      split at h
      · simp at h
      · rename_i s₃ ev₂ hassign
        simp only [Option.some.injEq, Prod.mk.injEq] at h
        obtain ⟨rfl, rfl⟩ := h
        obtain ⟨δ, hδ, hsub⟩ := assign_task_log hassign
        have hlog₂ : s₂.assign_log = s.assign_log := (auto_register_core hreg).2.2.1
        refine ⟨δ, by rw [hδ, hlog₂], ?_⟩
        have : assignIds ((nodeIdOf ip, Msg.welcome (nodeIdOf ip)) :: (ev₁ ++ ev₂))
            = assignIds ev₂ := by
          show assignIds (((nodeIdOf ip, Msg.welcome (nodeIdOf ip)) :: ev₁) ++ ev₂)
            = assignIds ev₂
          rw [assignIds_append]
          have h1 : assignIds ((nodeIdOf ip, Msg.welcome (nodeIdOf ip)) :: ev₁) = [] := by
            show assignIds ([(nodeIdOf ip, Msg.welcome (nodeIdOf ip))] ++ ev₁) = []
            rw [assignIds_append, auto_register_log hreg]
            rfl
          rw [h1]
          rfl
        rw [this]
        exact hsub

theorem handle_message_log {nid : String} {m : InMsg} {s s' : CoordState} {ev : List Event}
    (h : handle_message nid m s = some (s', ev)) :
    ∃ δ, s'.assign_log = s.assign_log ++ δ ∧
      List.Sublist (assignIds ev) (δ.map Prod.fst) := by
  cases m with
  | heartbeat now =>
    cases hn : lookupA s.nodes nid with
    | none => simp [handle_message, hn] at h
    | some n =>
      simp only [handle_message, hn, Option.some.injEq, Prod.mk.injEq] at h
      obtain ⟨rfl, rfl⟩ := h
      refine ⟨[], by simp, ?_⟩
      unfold send_to_node
      split <;> simp [assignIds]
  | capabilities caps =>
    cases hn : lookupA s.nodes nid with
    | none => simp [handle_message, hn] at h
    | some n =>
      simp only [handle_message, hn, Option.some.injEq, Prod.mk.injEq] at h
      obtain ⟨rfl, rfl⟩ := h
      exact ⟨[], by simp, by simp [assignIds]⟩
  | task_result tid res suc =>
    obtain ⟨hlog, hids⟩ := handle_task_result_log h
    exact ⟨[], by simp [hlog], by simp [hids]⟩
  | performance_update score =>
    cases hn : lookupA s.nodes nid with
    | none => simp [handle_message, hn] at h
    | some n =>
      simp only [handle_message, hn, Option.some.injEq, Prod.mk.injEq] at h
      obtain ⟨rfl, rfl⟩ := h
      exact ⟨[], by simp, by simp [assignIds]⟩
  | request_task => exact assign_task_log h

theorem submit_log {tt d : String} {p : Int} {s s' : CoordState} {ev : List Event}
    (h : submit_task_handler tt d p s = some (s', ev)) :
    ∃ δ, s'.assign_log = s.assign_log ++ δ ∧
      List.Sublist (assignIds ev) (δ.map Prod.fst) := by
  unfold submit_task_handler at h
  by_cases htt : tt = ""
  · rw [if_pos htt] at h
    simp only [Option.some.injEq, Prod.mk.injEq] at h
    obtain ⟨rfl, rfl⟩ := h
    exact ⟨[], by simp, by simp [assignIds]⟩
  · rw [if_neg htt] at h
    dsimp only at h
    have hadd : (add_task tt d p s).2.assign_log = s.assign_log := rfl
    split at h
    case _ hfc =>
      simp only [Option.some.injEq, Prod.mk.injEq] at h
      obtain ⟨rfl, rfl⟩ := h
      exact ⟨[], by simp [hadd], by simp [assignIds]⟩
    case _ nid hfc =>
      obtain ⟨δ, hδ, hsub⟩ := assign_task_log h
      exact ⟨δ, by rw [hδ, hadd], hsub⟩

theorem step_log {s s' : CoordState} {op : Op} {ev : List Event}
    (h : step s op = some (s', ev)) :
    ∃ δ, s'.assign_log = s.assign_log ++ δ ∧
      List.Sublist (assignIds ev) (δ.map Prod.fst) := by
  cases op with
  | connect ip now k8sOk slurmOk => exact register_handler_log h
  | disconnect ip =>
    simp only [step, Option.some.injEq, Prod.mk.injEq] at h
    obtain ⟨rfl, rfl⟩ := h
    exact ⟨[], by simp [on_disconnect], by simp [assignIds]⟩
  | msg ip m => exact handle_message_log h
  | http_submit tt d p => exact submit_log h

theorem run_log {s s' : CoordState} {ops : List Op} {ev : List Event}
    (h : run s ops = some (s', ev)) :
    ∃ δ, s'.assign_log = s.assign_log ++ δ ∧
      List.Sublist (assignIds ev) (δ.map Prod.fst) := by
  induction ops generalizing s ev with
  | nil =>
    simp only [run, Option.some.injEq, Prod.mk.injEq] at h
    obtain ⟨rfl, rfl⟩ := h
    exact ⟨[], by simp, by simp [assignIds]⟩
  | cons op rest ih =>
    simp only [run] at h
    cases hstep : step s op with
    | none => rw [hstep] at h; exact absurd h (by simp)
    | some pr =>
      obtain ⟨s₁, ev₁⟩ := pr
      rw [hstep] at h
      dsimp only at h
      cases hrun : run s₁ rest with
      | none => rw [hrun] at h; exact absurd h (by simp)
      | some pr₂ =>
        obtain ⟨s₂, ev₂⟩ := pr₂
        rw [hrun] at h
        simp only [Option.some.injEq, Prod.mk.injEq] at h
        obtain ⟨rfl, rfl⟩ := h
        obtain ⟨δ₁, hδ₁, hsub₁⟩ := step_log hstep
        obtain ⟨δ₂, hδ₂, hsub₂⟩ := ih hrun
        refine ⟨δ₁ ++ δ₂, by rw [hδ₂, hδ₁, List.append_assoc], ?_⟩
        rw [assignIds_append, List.map_append]
        exact List.Sublist.append hsub₁ hsub₂

end Coordinator

namespace Coordinator

/-! ### Status evolution lemmas (toward monotone task lifecycle) -/

theorem statusOkB_refl (x : Option TaskStatus) : statusOkB x x = true := by
  cases x with
  | none => rfl
  | some v => cases v <;> rfl

theorem statusOkB_pending_cases {x : Option TaskStatus}
    (h : statusOkB (some .pending) x = true) :
    x = some .pending ∨ x = some .assigned := by
  cases x with
  | none => exact absurd h (by simp [statusOkB])
  | some v => cases v with
    | pending => exact Or.inl rfl
    | assigned => exact Or.inr rfl
    | completed => exact absurd h (by simp [statusOkB])
    | failed => exact absurd h (by simp [statusOkB])

theorem taskStatus_congr {s s' : CoordState} (h : s'.tasks = s.tasks) (tid : Nat) :
    taskStatus s' tid = taskStatus s tid := by
  rw [taskStatus, taskStatus, h]

theorem goodOpB_result {s : CoordState} {ip : String} {tid : Nat} {res : String}
    {suc : Option Bool} (h : goodOpB s (.msg ip (.task_result tid res suc)) = true) :
    taskStatus s tid = none ∨ taskStatus s tid = some .assigned := by
  cases hst : taskStatus s tid with
  | none => exact Or.inl rfl
  | some v =>
    cases v with
    | assigned => exact Or.inr rfl
    | pending => simp [goodOpB, hst] at h
    | completed => simp [goodOpB, hst] at h
    | failed => simp [goodOpB, hst] at h

theorem add_task_lookup_old {s : CoordState} (tt d : String) (p : Int) {t : Nat}
    (h : t ≠ s.next_id) :
    lookupA (add_task tt d p s).2.tasks t = lookupA s.tasks t := by
  show lookupA (s.tasks ++ [(s.next_id, newTask tt d p s.next_id)]) t = lookupA s.tasks t
  rw [lookupA_append]
  cases hc : lookupA s.tasks t with
  | some v => rfl
  | none => simp [lookupA, Ne.symm h]

theorem add_task_lookup_new {s : CoordState} (tt d : String) (p : Int) (hI : Inv s) :
    lookupA (add_task tt d p s).2.tasks s.next_id = some (newTask tt d p s.next_id) := by
  show lookupA (s.tasks ++ [(s.next_id, newTask tt d p s.next_id)]) s.next_id = _
  have hfresh : lookupA s.tasks s.next_id = none := by
    refine lookupA_eq_none ?_
    intro hmem
    exact absurd (hI.tKeysLt s.next_id hmem) (lt_irrefl s.next_id)
  rw [lookupA_append, hfresh]
  simp [lookupA]

theorem add_task_queue_mem {s : CoordState} (tt d : String) (p : Int) (id : Nat) :
    id ∈ (add_task tt d p s).2.task_queue ↔ id ∈ s.task_queue ∨ id = s.next_id := by
  have hperm : List.Perm (add_task tt d p s).2.task_queue (s.task_queue ++ [s.next_id]) :=
    sortByPrio_perm _ _
  rw [hperm.mem_iff]
  simp

/-- Shape of a successful pop-and-assign: the queue head becomes assigned,
the tail becomes the queue, and all other task records keep their lookup. -/
theorem assign_task_shape {nid : String} {s s' : CoordState} {ev : List Event} {tid : Nat}
    {rest : List Nat} (hq : s.task_queue = tid :: rest)
    (h : assign_task nid s = some (s', ev)) :
    ∃ t0, lookupA s.tasks tid = some t0 ∧
      s'.task_queue = rest ∧
      s'.assign_log = s.assign_log ++ [(tid, nid)] ∧
      s'.nodes = s.nodes ∧ s'.connections = s.connections ∧
      lookupA s'.tasks tid =
        some { t0 with assigned_to := some nid, status := .assigned } ∧
      (∀ t, t ≠ tid → lookupA s'.tasks t = lookupA s.tasks t) := by
  cases ht : lookupA s.tasks tid with
  | none => simp [assign_task, hq, ht] at h
  | some t0 =>
    simp only [assign_task, hq, ht, Option.some.injEq, Prod.mk.injEq] at h
    obtain ⟨hs, -⟩ := h
    have hts : s'.tasks = updateA tid
        (fun tk => { tk with assigned_to := some nid, status := TaskStatus.assigned })
        s.tasks := by rw [← hs]
    refine ⟨t0, rfl, by rw [← hs], by rw [← hs], by rw [← hs], by rw [← hs], ?_, ?_⟩
    · rw [hts, lookupA_updateA_self, ht]
      rfl
    · intro t htt
      rw [hts, lookupA_updateA_ne _ _ htt]

/-- One `assign_task` call moves the popped queue head from pending to
assigned and leaves every other task status unchanged. -/
theorem assign_step_status {nid : String} {s s' : CoordState} {ev : List Event}
    (hI : Inv s) (hG : InvG s)
    (h : assign_task nid s = some (s', ev)) :
    (∀ t, statusOkB (taskStatus s t) (taskStatus s' t) = true) ∧ InvG s' := by
  cases hq : s.task_queue with
  | nil =>
    simp only [assign_task, hq, Option.some.injEq, Prod.mk.injEq] at h
    obtain ⟨rfl, -⟩ := h
    exact ⟨fun t => statusOkB_refl _, hG⟩
  | cons tid rest =>
    obtain ⟨t0, ht, hq', -, -, -, hself, hne⟩ := assign_task_shape hq h
    have htid : tid ∈ s.task_queue := by rw [hq]; exact List.mem_cons_self tid rest
    have hNd := hI.qNodup
    rw [hq, List.nodup_cons] at hNd
    have hpend : taskStatus s tid = some .pending := hG tid htid
    have hself' : taskStatus s' tid = some .assigned := by
      rw [taskStatus, hself]
      rfl
    have hne' : ∀ t, t ≠ tid → taskStatus s' t = taskStatus s t := by
      intro t htt
      rw [taskStatus, hne t htt, taskStatus]
    constructor
    · intro t
      by_cases htt : t = tid
      · subst htt
        rw [hpend, hself']
        rfl
      · rw [hne' t htt]
        exact statusOkB_refl _
    · intro id hid
      rw [hq'] at hid
      have hne2 : id ≠ tid := fun hc => hNd.1 (hc ▸ hid)
      rw [hne' id hne2]
      exact hG id (by rw [hq]; exact List.mem_cons_of_mem tid hid)

/-- One `add_task` call creates a fresh pending task and leaves every
other task status unchanged. -/
theorem add_step_status {s : CoordState} (tt d : String) (p : Int) (hI : Inv s) (hG : InvG s) :
    (∀ t, statusOkB (taskStatus s t) (taskStatus (add_task tt d p s).2 t) = true) ∧
    InvG (add_task tt d p s).2 := by
  have hb : taskStatus s s.next_id = none := by
    rw [taskStatus, lookupA_eq_none (fun hmem =>
      absurd (hI.tKeysLt s.next_id hmem) (lt_irrefl s.next_id))]
    rfl
  have ha : taskStatus (add_task tt d p s).2 s.next_id = some .pending := by
    rw [taskStatus, add_task_lookup_new tt d p hI]
    rfl
  have hold : ∀ t, t ≠ s.next_id →
      taskStatus (add_task tt d p s).2 t = taskStatus s t := by
    intro t htt
    rw [taskStatus, add_task_lookup_old tt d p htt, taskStatus]
  constructor
  · intro t
    by_cases htt : t = s.next_id
    · rw [htt, hb, ha]
      rfl
    · rw [hold t htt]
      exact statusOkB_refl _
  · intro id hid
    rcases (add_task_queue_mem tt d p id).mp hid with hmem | hid'
    · have hne : id ≠ s.next_id := fun hc =>
        absurd (hI.qLt id hmem) (hc ▸ lt_irrefl s.next_id)
      rw [hold id hne]
      exact hG id hmem
    · rw [hid', ha]

/-- A well-targeted `handle_task_result` call moves the named assigned
task to completed or failed and leaves every other task status
unchanged. -/
theorem result_step_status {nid : String} {tid : Nat} {res : String} {suc : Option Bool}
    {s s' : CoordState} {ev : List Event} (hG : InvG s)
    (hgood : taskStatus s tid = none ∨ taskStatus s tid = some .assigned)
    (h : handle_task_result nid tid res suc s = some (s', ev)) :
    (∀ t, statusOkB (taskStatus s t) (taskStatus s' t) = true) ∧ InvG s' := by
  cases ht : lookupA s.tasks tid with
  | none =>
    simp only [handle_task_result, ht, Option.some.injEq, Prod.mk.injEq] at h
    obtain ⟨rfl, -⟩ := h
    exact ⟨fun t => statusOkB_refl _, hG⟩
  | some t0 =>
    have hassigned : t0.status = .assigned := by
      rcases hgood with hg | hg
      · rw [taskStatus, ht] at hg
        simp at hg
      · rw [taskStatus, ht] at hg
        simpa using hg
    cases hn : lookupA s.nodes nid with
    | none => simp [handle_task_result, ht, hn] at h
    | some n =>
      simp only [handle_task_result, ht, hn, Option.some.injEq, Prod.mk.injEq] at h
      obtain ⟨hs, -⟩ := h
      have hts : s'.tasks = updateA tid
          (fun tk => { tk with
            status := if suc.getD true then TaskStatus.completed else TaskStatus.failed,
            result := some res }) s.tasks := by rw [← hs]
      have hq' : s'.task_queue = s.task_queue := by rw [← hs]
      have hself : taskStatus s' tid
          = some (if suc.getD true then TaskStatus.completed else TaskStatus.failed) := by
        rw [taskStatus, hts, lookupA_updateA_self, ht]
        rfl
      have hne' : ∀ t, t ≠ tid → taskStatus s' t = taskStatus s t := by
        intro t htt
        rw [taskStatus, hts, lookupA_updateA_ne _ _ htt, taskStatus]
      have hbefore : taskStatus s tid = some .assigned := by
        rw [taskStatus, ht]
        simp [hassigned]
      constructor
      · intro t
        by_cases htt : t = tid
        · subst htt
          rw [hbefore, hself]
          cases hok : suc.getD true <;> simp [hok, statusOkB]
        · rw [hne' t htt]
          exact statusOkB_refl _
      · intro id hid
        rw [hq'] at hid
        have hne2 : id ≠ tid := by
          intro hc
          have hp := hG id hid
          rw [hc, hbefore] at hp
          simp at hp
        rw [hne' id hne2]
        exact hG id hid

end Coordinator

namespace Coordinator

/-- Any single activity that is well-targeted (`goodOpB`) only moves task
statuses along the allowed lifecycle and keeps every queued task pending. -/
theorem statusOk_step {s s' : CoordState} {op : Op} {ev : List Event}
    (hI : Inv s) (hG : InvG s) (hop : goodOpB s op = true)
    (h : step s op = some (s', ev)) :
    (∀ t, statusOkB (taskStatus s t) (taskStatus s' t) = true) ∧ InvG s' := by
  cases op with
  | connect ip now k8sOk slurmOk =>
    unfold step register_handler at h
    dsimp only at h
    cases hn : lookupA s.nodes (nodeIdOf ip) <;> simp only [hn] at h <;>
    · split at h
      · simp at h
      · rename_i s₂ ev₁ hreg
        split at h
        · simp at h
        · rename_i s₃ ev₂ hassign
          simp only [Option.some.injEq, Prod.mk.injEq] at h
          obtain ⟨rfl, -⟩ := h
          have hcore := auto_register_core hreg
          have htasks₂ : s₂.tasks = s.tasks := hcore.1
          have hqueue₂ : s₂.task_queue = s.task_queue := hcore.2.1
          have hG₂ : InvG s₂ := by
            intro id hid
            rw [hqueue₂] at hid
            rw [taskStatus_congr htasks₂]
            exact hG id hid
          have hI₂ : Inv s₂ := by
            refine Inv.ofSameCore ?_ hcore
            first
            | exact hI.transfer rfl rfl rfl rfl (nodeKeys_updateA hI _ _)
            | · refine hI.transfer rfl rfl rfl rfl ?_
                intro k hk
                dsimp only at hk
                rw [List.map_append] at hk
                rcases List.mem_append.mp hk with hk | hk
                · exact hI.nodeKeys k hk
                · simp only [List.map_cons, List.map_nil, List.mem_singleton] at hk
                  subst hk
                  exact nodeIdOf_ne_empty ip
          obtain ⟨hst, hG₃⟩ := assign_step_status hI₂ hG₂ hassign
          refine ⟨?_, hG₃⟩
          intro t
          have := hst t
          rw [taskStatus_congr htasks₂] at this
          exact this
  | disconnect ip =>
    simp only [step, Option.some.injEq, Prod.mk.injEq] at h
    obtain ⟨rfl, -⟩ := h
    refine ⟨fun t => statusOkB_refl _, ?_⟩
    intro id hid
    exact hG id hid
  | msg ip m =>
    cases m with
    | heartbeat now =>
      cases hn : lookupA s.nodes (nodeIdOf ip) with
      | none => simp [step, handle_message, hn] at h
      | some n =>
        simp only [step, handle_message, hn, Option.some.injEq, Prod.mk.injEq] at h
        obtain ⟨hs, -⟩ := h
        have htasks : s'.tasks = s.tasks := by rw [← hs]
        have hqueue : s'.task_queue = s.task_queue := by rw [← hs]
        refine ⟨fun t => by rw [taskStatus_congr htasks]; exact statusOkB_refl _, ?_⟩
        intro id hid
        rw [hqueue] at hid
        rw [taskStatus_congr htasks]
        exact hG id hid
    | capabilities caps =>
      cases hn : lookupA s.nodes (nodeIdOf ip) with
      | none => simp [step, handle_message, hn] at h
      | some n =>
        simp only [step, handle_message, hn, Option.some.injEq, Prod.mk.injEq] at h
        obtain ⟨hs, -⟩ := h
        have htasks : s'.tasks = s.tasks := by rw [← hs]
        have hqueue : s'.task_queue = s.task_queue := by rw [← hs]
        refine ⟨fun t => by rw [taskStatus_congr htasks]; exact statusOkB_refl _, ?_⟩
        intro id hid
        rw [hqueue] at hid
        rw [taskStatus_congr htasks]
        exact hG id hid
    | task_result tid res suc =>
      exact result_step_status hG (goodOpB_result hop) h
    | performance_update score =>
      cases hn : lookupA s.nodes (nodeIdOf ip) with
      | none => simp [step, handle_message, hn] at h
      | some n =>
        simp only [step, handle_message, hn, Option.some.injEq, Prod.mk.injEq] at h
        obtain ⟨hs, -⟩ := h
        have htasks : s'.tasks = s.tasks := by rw [← hs]
        have hqueue : s'.task_queue = s.task_queue := by rw [← hs]
        refine ⟨fun t => by rw [taskStatus_congr htasks]; exact statusOkB_refl _, ?_⟩
        intro id hid
        rw [hqueue] at hid
        rw [taskStatus_congr htasks]
        exact hG id hid
    | request_task => exact assign_step_status hI hG h
  | http_submit tt d p =>
    unfold step submit_task_handler at h
    dsimp only at h
    by_cases htt : tt = ""
    · rw [if_pos htt] at h
      simp only [Option.some.injEq, Prod.mk.injEq] at h
      obtain ⟨rfl, -⟩ := h
      exact ⟨fun t => statusOkB_refl _, hG⟩
    · rw [if_neg htt] at h
      have hI₁ : Inv (add_task tt d p s).2 := inv_add_task tt d p hI
      obtain ⟨hst₁, hG₁⟩ := add_step_status tt d p hI hG
      split at h
      case _ hfc =>
        simp only [Option.some.injEq, Prod.mk.injEq] at h
        obtain ⟨rfl, -⟩ := h
        exact ⟨hst₁, hG₁⟩
      case _ nid hfc =>
        obtain ⟨hst₂, hG₂⟩ := assign_step_status hI₁ hG₁ h
        refine ⟨?_, hG₂⟩
        intro t
        by_cases htn : t = s.next_id
        · have hb : taskStatus s t = none := by
            rw [htn, taskStatus, lookupA_eq_none (fun hmem =>
              absurd (hI.tKeysLt s.next_id hmem) (lt_irrefl s.next_id))]
            rfl
          have ha : taskStatus (add_task tt d p s).2 t = some .pending := by
            rw [htn, taskStatus, add_task_lookup_new tt d p hI]
            rfl
          have h2 := hst₂ t
          rw [ha] at h2
          rw [hb]
          rcases statusOkB_pending_cases h2 with hc | hc <;> rw [hc] <;> rfl
        · have hsame : taskStatus (add_task tt d p s).2 t = taskStatus s t := by
            rw [taskStatus, add_task_lookup_old tt d p htn, taskStatus]
          have h2 := hst₂ t
          rw [hsame] at h2
          exact h2

theorem goodTraceB_cons {s : CoordState} {op : Op} {ops : List Op}
    (h : goodTraceB s (op :: ops) = true) :
    goodOpB s op = true ∧
      ∀ s₁ ev₁, step s op = some (s₁, ev₁) → goodTraceB s₁ ops = true := by
  simp only [goodTraceB, Bool.and_eq_true] at h
  obtain ⟨h1, h2⟩ := h
  refine ⟨h1, ?_⟩
  intro s₁ ev₁ hstep
  rw [hstep] at h2
  exact h2

theorem run_good_aux {s : CoordState} {ops : List Op} (hI : Inv s) (hG : InvG s)
    (hgt : goodTraceB s ops = true) {s' : CoordState} {ev : List Event}
    (h : run s ops = some (s', ev)) : Inv s' ∧ InvG s' := by
  induction ops generalizing s ev with
  | nil =>
    simp only [run, Option.some.injEq, Prod.mk.injEq] at h
    obtain ⟨rfl, -⟩ := h
    exact ⟨hI, hG⟩
  | cons op rest ih =>
    simp only [run] at h
    cases hstep : step s op with
    | none => rw [hstep] at h; exact absurd h (by simp)
    | some pr =>
      obtain ⟨s₁, ev₁⟩ := pr
      rw [hstep] at h
      dsimp only at h
      cases hrun : run s₁ rest with
      | none => rw [hrun] at h; exact absurd h (by simp)
      | some pr₂ =>
        obtain ⟨s₂, ev₂⟩ := pr₂
        rw [hrun] at h
        simp only [Option.some.injEq, Prod.mk.injEq] at h
        obtain ⟨rfl, -⟩ := h
        obtain ⟨hop, hnext⟩ := goodTraceB_cons hgt
        obtain ⟨-, hG₁⟩ := statusOk_step hI hG hop hstep
        exact ih (inv_step hI hstep) hG₁ (hnext s₁ ev₁ hstep) hrun

theorem goodTrace_last {s : CoordState} {ops : List Op} {op : Op}
    (hgt : goodTraceB s (ops ++ [op]) = true) {s' : CoordState} {ev : List Event}
    (h : run s ops = some (s', ev)) :
    goodOpB s' op = true ∧ goodTraceB s ops = true := by
  induction ops generalizing s ev with
  | nil =>
    simp only [run, Option.some.injEq, Prod.mk.injEq] at h
    obtain ⟨rfl, -⟩ := h
    obtain ⟨h1, -⟩ := goodTraceB_cons (by simpa using hgt)
    exact ⟨h1, rfl⟩
  | cons o rest ih =>
    simp only [run] at h
    cases hstep : step s o with
    | none => rw [hstep] at h; exact absurd h (by simp)
    | some pr =>
      obtain ⟨s₁, ev₁⟩ := pr
      rw [hstep] at h
      dsimp only at h
      cases hrun : run s₁ rest with
      | none => rw [hrun] at h; exact absurd h (by simp)
      | some pr₂ =>
        obtain ⟨s₂, ev₂⟩ := pr₂
        rw [hrun] at h
        simp only [Option.some.injEq, Prod.mk.injEq] at h
        obtain ⟨rfl, -⟩ := h
        have hgt' : goodTraceB s (o :: (rest ++ [op])) = true := by simpa using hgt
        obtain ⟨ho, hnext⟩ := goodTraceB_cons hgt'
        obtain ⟨hfin, hrest⟩ := ih (hnext s₁ ev₁ hstep) hrun
        refine ⟨hfin, ?_⟩
        simp only [goodTraceB, Bool.and_eq_true, hstep]
        exact ⟨ho, hrest⟩

end Coordinator

namespace Coordinator

/-! ### Node-record evolution through the connect sequence -/

theorem lookupA_updateA_isSome {β : Type} [DecidableEq α] (l : List (α × β)) (key : α)
    (f : β → β) (k : α) (h : (lookupA l k).isSome) :
    (lookupA (updateA key f l) k).isSome := by
  by_cases hk : k = key
  · subst hk
    rw [lookupA_updateA_self]
    cases hc : lookupA l k with
    | none => rw [hc] at h; exact absurd h (by simp)
    | some v => rfl
  · rw [lookupA_updateA_ne _ _ hk]
    exact h

/-- The Kubernetes registration attempt leaves other nodes alone and, on
the target node, can only change the `kubernetes_registered` flag, and
only from false to true. -/
theorem k8s_register_step_nodeFacts (node_id : String) (k8sOk : Bool) (node : ComputeNode)
    (s : CoordState) :
    (∀ k, k ≠ node_id →
      lookupA (k8s_register_step node_id k8sOk node s).1.nodes k = lookupA s.nodes k) ∧
    (∀ n, lookupA s.nodes node_id = some n → ∃ n',
      lookupA (k8s_register_step node_id k8sOk node s).1.nodes node_id = some n' ∧
      n'.node_id = n.node_id ∧ n'.ip_address = n.ip_address ∧
      n'.status = n.status ∧ n'.last_seen = n.last_seen ∧
      n'.tasks_completed = n.tasks_completed ∧ n'.capabilities = n.capabilities ∧
      n'.performance_score = n.performance_score ∧
      n'.slurm_registered = n.slurm_registered ∧
      (n.kubernetes_registered = true → n'.kubernetes_registered = true)) := by
  unfold k8s_register_step
  split
  · split
    · dsimp only
      constructor
      · intro k hk
        exact lookupA_updateA_ne _ _ hk
      · intro n hn
        refine ⟨{ n with kubernetes_registered := true }, ?_, rfl, rfl, rfl, rfl, rfl, rfl,
          rfl, rfl, fun _ => rfl⟩
        rw [lookupA_updateA_self, hn]
        rfl
    · exact ⟨fun k _ => rfl, fun n hn => ⟨n, hn, rfl, rfl, rfl, rfl, rfl, rfl, rfl, rfl,
        fun hh => hh⟩⟩
  · exact ⟨fun k _ => rfl, fun n hn => ⟨n, hn, rfl, rfl, rfl, rfl, rfl, rfl, rfl, rfl,
      fun hh => hh⟩⟩

/-- The SLURM registration attempt leaves other nodes alone and, on the
target node, can only change the `slurm_registered` flag, and only from
false to true. -/
theorem slurm_register_step_nodeFacts (node_id : String) (slurmOk : Bool) (node : ComputeNode)
    (s : CoordState) :
    (∀ k, k ≠ node_id →
      lookupA (slurm_register_step node_id slurmOk node s).1.nodes k = lookupA s.nodes k) ∧
    (∀ n, lookupA s.nodes node_id = some n → ∃ n',
      lookupA (slurm_register_step node_id slurmOk node s).1.nodes node_id = some n' ∧
      n'.node_id = n.node_id ∧ n'.ip_address = n.ip_address ∧
      n'.status = n.status ∧ n'.last_seen = n.last_seen ∧
      n'.tasks_completed = n.tasks_completed ∧ n'.capabilities = n.capabilities ∧
      n'.performance_score = n.performance_score ∧
      n'.kubernetes_registered = n.kubernetes_registered ∧
      (n.slurm_registered = true → n'.slurm_registered = true)) := by
  unfold slurm_register_step
  split
  · split
    · split
      · dsimp only
        constructor
        · intro k hk
          exact lookupA_updateA_ne _ _ hk
        · intro n hn
          refine ⟨{ n with slurm_registered := true }, ?_, rfl, rfl, rfl, rfl, rfl, rfl,
            rfl, rfl, fun _ => rfl⟩
          rw [lookupA_updateA_self, hn]
          rfl
      · exact ⟨fun k _ => rfl, fun n hn => ⟨n, hn, rfl, rfl, rfl, rfl, rfl, rfl, rfl, rfl,
          fun hh => hh⟩⟩
    · exact ⟨fun k _ => rfl, fun n hn => ⟨n, hn, rfl, rfl, rfl, rfl, rfl, rfl, rfl, rfl,
        fun hh => hh⟩⟩
  · exact ⟨fun k _ => rfl, fun n hn => ⟨n, hn, rfl, rfl, rfl, rfl, rfl, rfl, rfl, rfl,
      fun hh => hh⟩⟩

/-- Auto-registration leaves other nodes alone and, on the target node,
only the two backend flags can change, each only from false to true. -/
theorem auto_register_nodeFacts {nid : String} {k8sOk slurmOk : Bool} {s s' : CoordState}
    {ev : List Event}
    (h : auto_register_to_clusters nid k8sOk slurmOk s = some (s', ev)) :
    (∀ k, k ≠ nid → lookupA s'.nodes k = lookupA s.nodes k) ∧
    (∀ n, lookupA s.nodes nid = some n → ∃ n',
      lookupA s'.nodes nid = some n' ∧
      n'.node_id = n.node_id ∧ n'.ip_address = n.ip_address ∧
      n'.status = n.status ∧ n'.last_seen = n.last_seen ∧
      n'.tasks_completed = n.tasks_completed ∧ n'.capabilities = n.capabilities ∧
      n'.performance_score = n.performance_score ∧
      (n.kubernetes_registered = true → n'.kubernetes_registered = true) ∧
      (n.slurm_registered = true → n'.slurm_registered = true)) := by
  cases hn : lookupA s.nodes nid with
  | none => simp [auto_register_to_clusters, hn] at h
  | some node =>
    simp only [auto_register_to_clusters, hn, Option.some.injEq, Prod.mk.injEq] at h
    obtain ⟨hs, -⟩ := h
    obtain ⟨hk1, hk2⟩ := k8s_register_step_nodeFacts nid k8sOk node s
    obtain ⟨hs1, hs2⟩ :=
      slurm_register_step_nodeFacts nid slurmOk node (k8s_register_step nid k8sOk node s).1
    constructor
    · intro k hk
      rw [← hs]
      rw [hs1 k hk, hk1 k hk]
    · intro n hn'
      injection hn' with hn''
      subst hn''
      obtain ⟨n₁, hn₁, e1, e2, e3, e4, e5, e6, e7, e8, e9⟩ := hk2 node hn
      obtain ⟨n₂, hn₂, f1, f2, f3, f4, f5, f6, f7, f8, f9⟩ := hs2 n₁ hn₁
      refine ⟨n₂, by rw [← hs]; exact hn₂, f1.trans e1, f2.trans e2, f3.trans e3,
        f4.trans e4, f5.trans e5, f6.trans e6, f7.trans e7, ?_, ?_⟩
      · intro hreg
        rw [f8]
        exact e9 hreg
      · intro hreg
        exact f9 (e8 ▸ hreg)

theorem assign_task_nodes {nid : String} {s s' : CoordState} {ev : List Event}
    (h : assign_task nid s = some (s', ev)) :
    s'.nodes = s.nodes ∧ s'.connections = s.connections := by
  cases hq : s.task_queue with
  | nil =>
    simp only [assign_task, hq, Option.some.injEq, Prod.mk.injEq] at h
    obtain ⟨rfl, -⟩ := h
    exact ⟨rfl, rfl⟩
  | cons tid rest =>
    obtain ⟨t0, -, -, -, hnodes, hconn, -, -⟩ := assign_task_shape hq h
    exact ⟨hnodes, hconn⟩

/-- The reconnect behaviour of the connect sequence: for a node identity
that already exists in the registry, the registry update sets status
connected and refreshes last-seen; the completed-task counter, the
capability set, the performance score and the stored identity are carried
over unchanged; a backend flag that was already set stays set; every other
node's record is untouched. -/
theorem register_handler_reconnect {s s' : CoordState} {ip : String} {now : Nat}
    {k8sOk slurmOk : Bool} {ev : List Event} {n : ComputeNode}
    (hn : lookupA s.nodes (nodeIdOf ip) = some n)
    (h : register_handler ip now k8sOk slurmOk s = some (s', ev)) :
    (∃ n', lookupA s'.nodes (nodeIdOf ip) = some n' ∧
      n'.node_id = n.node_id ∧ n'.ip_address = n.ip_address ∧
      n'.status = .connected ∧ n'.last_seen = now ∧
      n'.tasks_completed = n.tasks_completed ∧ n'.capabilities = n.capabilities ∧
      n'.performance_score = n.performance_score ∧
      (n.kubernetes_registered = true → n'.kubernetes_registered = true) ∧
      (n.slurm_registered = true → n'.slurm_registered = true)) ∧
    (∀ k, k ≠ nodeIdOf ip → lookupA s'.nodes k = lookupA s.nodes k) := by
  unfold register_handler at h
  dsimp only at h
  simp only [hn] at h
  split at h
  · simp at h
  · rename_i s₂ ev₁ hreg
    split at h
    · simp at h
    · rename_i s₃ ev₂ hassign
      simp only [Option.some.injEq, Prod.mk.injEq] at h
      obtain ⟨rfl, -⟩ := h
      obtain ⟨hne, hself⟩ := auto_register_nodeFacts hreg
      obtain ⟨hnodes₃, -⟩ := assign_task_nodes hassign
      have hn₁ : lookupA
          (updateA (nodeIdOf ip)
            (fun nd => { nd with status := NodeStatus.connected, last_seen := now })
            s.nodes) (nodeIdOf ip)
          = some { n with status := NodeStatus.connected, last_seen := now } := by
        rw [lookupA_updateA_self, hn]
        rfl
      obtain ⟨n', hn', e1, e2, e3, e4, e5, e6, e7, e8, e9⟩ := hself _ hn₁
      constructor
      · exact ⟨n', by rw [hnodes₃]; exact hn', e1, e2, e3, e4, e5, e6, e7, e8, e9⟩
      · intro k hk
        rw [hnodes₃, hne k hk, lookupA_updateA_ne _ _ hk]

/-- No activity ever deletes a node record. -/
theorem step_nodes_grow {s s' : CoordState} {op : Op} {ev : List Event}
    (h : step s op = some (s', ev)) :
    ∀ k, (lookupA s.nodes k).isSome → (lookupA s'.nodes k).isSome := by
  cases op with
  | connect ip now k8sOk slurmOk =>
    unfold step register_handler at h
    dsimp only at h
    cases hn : lookupA s.nodes (nodeIdOf ip) with
    | none =>
      simp only [hn] at h
      split at h
      · simp at h
      · rename_i s₂ ev₁ hreg
        split at h
        · simp at h
        · rename_i s₃ ev₂ hassign
          simp only [Option.some.injEq, Prod.mk.injEq] at h
          obtain ⟨rfl, -⟩ := h
          intro k hk
          obtain ⟨hne, -⟩ := auto_register_nodeFacts hreg
          obtain ⟨hnodes₃, -⟩ := assign_task_nodes hassign
          rw [hnodes₃]
          by_cases hkk : k = nodeIdOf ip
          · rw [hkk, hn] at hk
            exact absurd hk (by simp)
          · rw [hne k hkk]
            dsimp only
            rw [lookupA_append]
            cases hl : lookupA s.nodes k with
            | none => rw [hl] at hk; exact absurd hk (by simp)
            | some v => rfl
    | some n0 =>
      simp only [hn] at h
      split at h
      · simp at h
      · rename_i s₂ ev₁ hreg
        split at h
        · simp at h
        · rename_i s₃ ev₂ hassign
          simp only [Option.some.injEq, Prod.mk.injEq] at h
          obtain ⟨rfl, -⟩ := h
          intro k hk
          obtain ⟨hne, hself⟩ := auto_register_nodeFacts hreg
          obtain ⟨hnodes₃, -⟩ := assign_task_nodes hassign
          rw [hnodes₃]
          by_cases hkk : k = nodeIdOf ip
          · obtain ⟨n', hn', -⟩ := hself { n0 with
              status := NodeStatus.connected, last_seen := now } (by
                dsimp only
                rw [lookupA_updateA_self, hn]
                rfl)
            rw [hkk, hn']
            rfl
          · rw [hne k hkk]
            dsimp only
            rw [lookupA_updateA_ne _ _ hkk]
            exact hk
  | disconnect ip =>
    simp only [step, Option.some.injEq, Prod.mk.injEq] at h
    obtain ⟨rfl, -⟩ := h
    intro k hk
    exact lookupA_updateA_isSome _ _ _ _ hk
  | msg ip m =>
    cases m with
    | heartbeat now =>
      cases hn : lookupA s.nodes (nodeIdOf ip) with
      | none => simp [step, handle_message, hn] at h
      | some n =>
        simp only [step, handle_message, hn, Option.some.injEq, Prod.mk.injEq] at h
        obtain ⟨hs, -⟩ := h
        intro k hk
        have : s'.nodes = updateA (nodeIdOf ip) (fun nd => { nd with last_seen := now })
            s.nodes := by rw [← hs]
        rw [this]
        exact lookupA_updateA_isSome _ _ _ _ hk
    | capabilities caps =>
      cases hn : lookupA s.nodes (nodeIdOf ip) with
      | none => simp [step, handle_message, hn] at h
      | some n =>
        simp only [step, handle_message, hn, Option.some.injEq, Prod.mk.injEq] at h
        obtain ⟨hs, -⟩ := h
        intro k hk
        have : s'.nodes = updateA (nodeIdOf ip) (fun nd => { nd with capabilities := caps })
            s.nodes := by rw [← hs]
        rw [this]
        exact lookupA_updateA_isSome _ _ _ _ hk
    | task_result tid res suc =>
      cases ht : lookupA s.tasks tid with
      | none =>
        simp only [step, handle_message, handle_task_result, ht, Option.some.injEq,
          Prod.mk.injEq] at h
        obtain ⟨rfl, -⟩ := h
        exact fun k hk => hk
      | some t0 =>
        cases hnd : lookupA s.nodes (nodeIdOf ip) with
        | none => simp [step, handle_message, handle_task_result, ht, hnd] at h
        | some n =>
          simp only [step, handle_message, handle_task_result, ht, hnd, Option.some.injEq,
            Prod.mk.injEq] at h
          obtain ⟨hs, -⟩ := h
          intro k hk
          have : s'.nodes = updateA (nodeIdOf ip)
              (fun nd => { nd with tasks_completed := nd.tasks_completed + 1 }) s.nodes := by
            rw [← hs]
          rw [this]
          exact lookupA_updateA_isSome _ _ _ _ hk
    | performance_update score =>
      cases hn : lookupA s.nodes (nodeIdOf ip) with
      | none => simp [step, handle_message, hn] at h
      | some n =>
        simp only [step, handle_message, hn, Option.some.injEq, Prod.mk.injEq] at h
        obtain ⟨hs, -⟩ := h
        intro k hk
        have : s'.nodes = updateA (nodeIdOf ip)
            (fun nd => { nd with performance_score := score }) s.nodes := by rw [← hs]
        rw [this]
        exact lookupA_updateA_isSome _ _ _ _ hk
    | request_task =>
      have hs := assign_task_nodes h
      intro k hk
      rw [hs.1]
      exact hk
  | http_submit tt d p =>
    unfold step submit_task_handler at h
    dsimp only at h
    by_cases htt : tt = ""
    · rw [if_pos htt] at h
      simp only [Option.some.injEq, Prod.mk.injEq] at h
      obtain ⟨rfl, -⟩ := h
      exact fun k hk => hk
    · rw [if_neg htt] at h
      split at h
      case _ hfc =>
        simp only [Option.some.injEq, Prod.mk.injEq] at h
        obtain ⟨rfl, -⟩ := h
        exact fun k hk => hk
      case _ nid hfc =>
        have hs := assign_task_nodes h
        intro k hk
        rw [hs.1]
        exact hk

end Coordinator

namespace Coordinator

/-! ### Claim theorems -/

/-- C1: across every sequence of activities (request-driven assignments,
connect-time eager offers, HTTP submissions), each task identity is
handed out at most once: the ghost hand-out log — which records every
pop-and-assign at `server.py` lines 176-181, whether or not the follow-up
send succeeded — never repeats a task id, and neither does the stream of
`task_assignment` messages actually sent. -/
theorem assignment_handed_out_at_most_once (k8s slurm munge : Bool) (ops : List Op)
    (s : CoordState) (ev : List Event)
    (h : run (init k8s slurm munge) ops = some (s, ev)) :
    (s.assign_log.map Prod.fst).Nodup ∧ (assignIds ev).Nodup := by
  have hI := inv_run (inv_init k8s slurm munge) h
  refine ⟨hI.logNodup, ?_⟩
  obtain ⟨δ, hδ, hsub⟩ := run_log h
  have hδ' : s.assign_log = δ := hδ
  exact List.Nodup.sublist hsub (hδ' ▸ hI.logNodup)

/-- Witness for C1 on the concrete trace: submit one task, then a node
connects and is eagerly offered it. -/
theorem assignment_handed_out_at_most_once_witness :
    ((run (init false false false)
        [Op.http_submit "a" "x" 2, Op.connect "h1" 7 false false]).map
      (fun pr => (pr.1.assign_log.map Prod.fst).Nodup ∧ (assignIds pr.2).Nodup)).getD
      False := by
  cases hrun : run (init false false false)
      [Op.http_submit "a" "x" 2, Op.connect "h1" 7 false false] with
  | none => exact absurd hrun (by decide)
  | some pr =>
    obtain ⟨s, ev⟩ := pr
    simpa using
      assignment_handed_out_at_most_once false false false
        [Op.http_submit "a" "x" 2, Op.connect "h1" 7 false false] s ev hrun

/-- C2: after every sequence of activities the pending queue is strictly
ordered by the pair (priority descending, task id ascending); task ids
are handed out by an increasing counter, so id order is submission order.
Hence popping the head always takes the highest-priority remaining task,
ties resolved in submission order. -/
theorem pending_queue_priority_sorted (k8s slurm munge : Bool) (ops : List Op)
    (s : CoordState) (ev : List Event)
    (h : run (init k8s slurm munge) ops = some (s, ev)) :
    s.task_queue.Pairwise (qltP (prioOf s.tasks)) :=
  (inv_run (inv_init k8s slurm munge) h).qSorted

/-- Witness for C2: the spec scenario.  Submitting A(priority 2),
B(priority 1), C(priority 2) — ids 0, 1, 2 — leaves the queue [A, C, B];
after a node connects (one eager pop) and requests twice more, the
hand-out order is A, C, B. -/
theorem pending_queue_priority_sorted_witness :
    ((run (init false false false) [Op.http_submit "a" "x" 2, Op.http_submit "b" "x" 1,
        Op.http_submit "c" "x" 2]).map (fun pr => pr.1.task_queue) = some [0, 2, 1]) ∧
    ((run (init false false false) [Op.http_submit "a" "x" 2, Op.http_submit "b" "x" 1,
        Op.http_submit "c" "x" 2, Op.connect "h1" 0 false false,
        Op.msg "h1" InMsg.request_task, Op.msg "h1" InMsg.request_task]).map
      (fun pr => pr.1.assign_log.map Prod.fst) = some [0, 2, 1]) ∧
    ((run (init false false false) [Op.http_submit "a" "x" 2, Op.http_submit "b" "x" 1,
        Op.http_submit "c" "x" 2]).map
      (fun pr => pr.1.task_queue.Pairwise (qltP (prioOf pr.1.tasks)))).getD False := by
  refine ⟨by decide, by decide, ?_⟩
  cases hrun : run (init false false false) [Op.http_submit "a" "x" 2,
      Op.http_submit "b" "x" 1, Op.http_submit "c" "x" 2] with
  | none => exact absurd hrun (by decide)
  | some pr =>
    obtain ⟨s, ev⟩ := pr
    simpa using
      pending_queue_priority_sorted false false false [Op.http_submit "a" "x" 2,
        Op.http_submit "b" "x" 1, Op.http_submit "c" "x" 2] s ev hrun

/-- C5: a `task_result` message whose task id is unknown is a complete
no-op: the handler raises nothing, replies nothing, and the state —
every task record, the queue, every node record including the reporting
node's completed-task counter — is returned unchanged. -/
theorem unknown_task_result_is_noop (s : CoordState) (ip : String) (tid : Nat)
    (res : String) (suc : Option Bool)
    (h : lookupA s.tasks tid = none) :
    step s (.msg ip (.task_result tid res suc)) = some (s, []) := by
  simp [step, handle_message, handle_task_result, h]

/-- Witness for C5 at the startup state and an arbitrary task id. -/
theorem unknown_task_result_is_noop_witness :
    lookupA (init false false false).tasks 5 = none ∧
    step (init false false false) (Op.msg "h1" (InMsg.task_result 5 "r" none))
      = some (init false false false, []) :=
  ⟨rfl, unknown_task_result_is_noop (init false false false) "h1" 5 "r" none rfl⟩

/-- C7: a `request_task` message arriving while the pending queue is
empty is answered with a `no_tasks` message, not an error: the handler
succeeds, the state — including the channel map, so the connection stays
open — is returned unchanged, and the only effect is the informational
reply. -/
theorem empty_queue_request_gets_no_tasks (s : CoordState) (ip : String)
    (hq : s.task_queue = []) (hc : nodeIdOf ip ∈ s.connections) :
    step s (.msg ip .request_task) = some (s, [(nodeIdOf ip, Msg.no_tasks)]) := by
  simp [step, handle_message, assign_task, hq, send_to_node, hc]

/-- Witness for C7: a freshly connected node asks for work while the
queue is empty. -/
theorem empty_queue_request_gets_no_tasks_witness :
    ((run (init false false false) [Op.connect "h1" 3 false false]).map
      (fun pr => step pr.1 (Op.msg "h1" InMsg.request_task)
        = some (pr.1, [(nodeIdOf "h1", Msg.no_tasks)]))).getD False := by
  cases hrun : run (init false false false) [Op.connect "h1" 3 false false] with
  | none => exact absurd hrun (by decide)
  | some pr =>
    obtain ⟨s, ev⟩ := pr
    have hq0 : (run (init false false false) [Op.connect "h1" 3 false false]).map
        (fun pr => pr.1.task_queue) = some [] := by decide
    rw [hrun] at hq0
    simp only [Option.map_some', Option.some.injEq] at hq0
    have hc0 : (run (init false false false) [Op.connect "h1" 3 false false]).map
        (fun pr => decide (nodeIdOf "h1" ∈ pr.1.connections)) = some true := by decide
    rw [hrun] at hc0
    simp only [Option.map_some', Option.some.injEq, decide_eq_true_eq] at hc0
    simpa using empty_queue_request_gets_no_tasks s "h1" hq0 hc0

/-- C8: closing a node's channel removes exactly that channel mapping and
marks exactly that node disconnected: tasks (including any still assigned
to the node), the pending queue, the hand-out log, the id counter, and
every other node's record and channel are untouched, and no reply is
sent. -/
theorem disconnect_only_marks_node (s : CoordState) (ip : String) :
    step s (.disconnect ip) = some (on_disconnect ip s, []) ∧
    (on_disconnect ip s).tasks = s.tasks ∧
    (on_disconnect ip s).task_queue = s.task_queue ∧
    (on_disconnect ip s).assign_log = s.assign_log ∧
    (on_disconnect ip s).next_id = s.next_id ∧
    (on_disconnect ip s).connections = s.connections.erase (nodeIdOf ip) ∧
    lookupA (on_disconnect ip s).nodes (nodeIdOf ip)
      = (lookupA s.nodes (nodeIdOf ip)).map
          (fun nd => { nd with status := NodeStatus.disconnected }) ∧
    (∀ k, k ≠ nodeIdOf ip → lookupA (on_disconnect ip s).nodes k = lookupA s.nodes k) := by
  refine ⟨rfl, rfl, rfl, rfl, rfl, rfl, ?_, ?_⟩
  · exact lookupA_updateA_self _ _ _
  · intro k hk
    exact lookupA_updateA_ne _ _ hk

/-- Witness for C8 at the startup state. -/
theorem disconnect_only_marks_node_witness :
    step (init false false false) (Op.disconnect "h1")
      = some (on_disconnect "h1" (init false false false), []) ∧
    (on_disconnect "h1" (init false false false)).tasks = (init false false false).tasks ∧
    (on_disconnect "h1" (init false false false)).task_queue
      = (init false false false).task_queue ∧
    (on_disconnect "h1" (init false false false)).assign_log
      = (init false false false).assign_log ∧
    (on_disconnect "h1" (init false false false)).next_id
      = (init false false false).next_id ∧
    (on_disconnect "h1" (init false false false)).connections
      = (init false false false).connections.erase (nodeIdOf "h1") ∧
    lookupA (on_disconnect "h1" (init false false false)).nodes (nodeIdOf "h1")
      = (lookupA (init false false false).nodes (nodeIdOf "h1")).map
          (fun nd => { nd with status := NodeStatus.disconnected }) ∧
    (∀ k, k ≠ nodeIdOf "h1" →
      lookupA (on_disconnect "h1" (init false false false)).nodes k
        = lookupA (init false false false).nodes k) :=
  disconnect_only_marks_node (init false false false) "h1"

end Coordinator

namespace Coordinator

/-- C3 counterexample: the claim "statuses move only pending → assigned →
completed/failed and never change after completed/failed" is false on
the code.  Submit two equal-priority tasks, let a node connect (eagerly
taking task 0), then have it report a result for the still-*pending*
task 1: `handle_task_result` checks only that the id is known, so task 1
jumps pending → completed while still queued; a later `request_task`
pops it, moving completed → assigned. -/
theorem status_transition_counterexample :
    ((run (init false false false) [Op.http_submit "a" "x" 1, Op.http_submit "b" "x" 1,
        Op.connect "h1" 0 false false]).map (fun pr => taskStatus pr.1 1)
      = some (some TaskStatus.pending)) ∧
    ((run (init false false false) [Op.http_submit "a" "x" 1, Op.http_submit "b" "x" 1,
        Op.connect "h1" 0 false false,
        Op.msg "h1" (InMsg.task_result 1 "r" (some true))]).map (fun pr => taskStatus pr.1 1)
      = some (some TaskStatus.completed)) ∧
    ((run (init false false false) [Op.http_submit "a" "x" 1, Op.http_submit "b" "x" 1,
        Op.connect "h1" 0 false false, Op.msg "h1" (InMsg.task_result 1 "r" (some true)),
        Op.msg "h1" InMsg.request_task]).map (fun pr => taskStatus pr.1 1)
      = some (some TaskStatus.assigned)) ∧
    statusOkB (some TaskStatus.pending) (some TaskStatus.completed) = false ∧
    statusOkB (some TaskStatus.completed) (some TaskStatus.assigned) = false := by
  refine ⟨by decide, by decide, by decide, rfl, rfl⟩

/-- C3 amended: on traces whose `task_result` messages each name, at
their point of execution, an unknown or currently-assigned task — the
intended protocol use — every activity moves each task's status only
along the allowed lifecycle (created pending, possibly created-and-
assigned within one HTTP submission, pending → assigned, assigned →
completed/failed, otherwise unchanged); in particular nothing ever
returns to pending and a completed or failed task never changes again. -/
theorem status_transitions_monotonic_on_good_traces (k8s slurm munge : Bool)
    (ops : List Op) (op : Op) (s s' : CoordState) (ev ev' : List Event)
    (hg : goodTraceB (init k8s slurm munge) (ops ++ [op]) = true)
    (h1 : run (init k8s slurm munge) ops = some (s, ev))
    (h2 : step s op = some (s', ev')) :
    ∀ tid, statusOkB (taskStatus s tid) (taskStatus s' tid) = true := by
  obtain ⟨hop, hpre⟩ := goodTrace_last hg h1
  obtain ⟨hI, hG⟩ := run_good_aux (inv_init k8s slurm munge)
    (fun id hid => absurd hid (List.not_mem_nil id)) hpre h1
  exact (statusOk_step hI hG hop h2).1

/-- Witness for the amended C3: three submissions followed by a connect
(which eagerly assigns task 0) form a good trace, and the statuses across
the connect step are all lifecycle-monotone. -/
theorem status_transitions_monotonic_witness :
    (goodTraceB (init false false false) ([Op.http_submit "a" "x" 2,
        Op.http_submit "b" "x" 1, Op.http_submit "c" "x" 2]
        ++ [Op.connect "h1" 0 false false]) = true) ∧
    ((run (init false false false) [Op.http_submit "a" "x" 2, Op.http_submit "b" "x" 1,
        Op.http_submit "c" "x" 2]).bind
      (fun pr => (step pr.1 (Op.connect "h1" 0 false false)).map
        (fun pr2 => ∀ tid, statusOkB (taskStatus pr.1 tid) (taskStatus pr2.1 tid)
          = true))).getD False := by
  refine ⟨by decide, ?_⟩
  cases hrun : run (init false false false) [Op.http_submit "a" "x" 2,
      Op.http_submit "b" "x" 1, Op.http_submit "c" "x" 2] with
  | none => exact absurd hrun (by decide)
  | some pr =>
    obtain ⟨s, ev⟩ := pr
    cases hstep : step s (Op.connect "h1" 0 false false) with
    | none =>
      have hcomp : (run (init false false false) [Op.http_submit "a" "x" 2,
          Op.http_submit "b" "x" 1, Op.http_submit "c" "x" 2]).bind
          (fun pr => step pr.1 (Op.connect "h1" 0 false false)) = none := by
        rw [hrun]
        exact hstep
      exact absurd hcomp (by decide)
    | some pr2 =>
      obtain ⟨s', ev'⟩ := pr2
      simp only [Option.bind]
      rw [hstep]
      simpa using
        status_transitions_monotonic_on_good_traces false false false
          [Op.http_submit "a" "x" 2, Op.http_submit "b" "x" 1, Op.http_submit "c" "x" 2]
          (Op.connect "h1" 0 false false) s s' ev ev' (by decide) hrun hstep

/-- C4 counterexample: the claim "the pending queue contains exactly the
ids of tasks whose status is pending" is false on the code.  On the same
trace as the C3 counterexample, a `task_result` for the still-queued
pending task 1 overwrites its status to completed without dequeuing it:
afterwards id 1 sits in the queue with a non-pending status. -/
theorem queue_exactly_pending_counterexample :
    ((run (init false false false) [Op.http_submit "a" "x" 1, Op.http_submit "b" "x" 1,
        Op.connect "h1" 0 false false,
        Op.msg "h1" (InMsg.task_result 1 "r" (some true))]).map
      (fun pr => (decide (1 ∈ pr.1.task_queue), taskStatus pr.1 1))
      = some (true, some TaskStatus.completed)) ∧
    some TaskStatus.completed ≠ some TaskStatus.pending := ⟨by decide, by decide⟩

/-- C4 amended: after every sequence of activities, every pending task's
id is in the queue, every queued id is a known task whose status is never
`assigned` (it is pending unless a `task_result` naming it arrived while
it was still queued, which marks it completed or failed without dequeuing
it), and every assigned task has a non-empty assignee and is absent from
the queue. -/
theorem queue_pending_invariant_amended (k8s slurm munge : Bool) (ops : List Op)
    (s : CoordState) (ev : List Event)
    (h : run (init k8s slurm munge) ops = some (s, ev)) :
    (∀ k t, lookupA s.tasks k = some t → t.status = .pending → k ∈ s.task_queue) ∧
    (∀ id ∈ s.task_queue, ∃ t, lookupA s.tasks id = some t ∧ t.status ≠ .assigned) ∧
    (∀ k t, lookupA s.tasks k = some t → t.status = .assigned →
      (∃ nid, t.assigned_to = some nid ∧ nid ≠ "") ∧ k ∉ s.task_queue) := by
  have hI := inv_run (inv_init k8s slurm munge) h
  refine ⟨hI.pendingInQ, hI.qInTasks, ?_⟩
  intro k t hk ha
  refine ⟨hI.assignedOk k t hk ha, ?_⟩
  intro hmem
  obtain ⟨t', ht', hne⟩ := hI.qInTasks k hmem
  rw [hk] at ht'
  injection ht' with hh
  exact hne (hh ▸ ha)

/-- Witness for the amended C4 on the counterexample trace itself: even
with a completed task stuck in the queue, the amended invariant holds. -/
theorem queue_pending_invariant_witness :
    ((run (init false false false) [Op.http_submit "a" "x" 1, Op.http_submit "b" "x" 1,
        Op.connect "h1" 0 false false,
        Op.msg "h1" (InMsg.task_result 1 "r" (some true))]).map
      (fun pr =>
        (∀ k t, lookupA pr.1.tasks k = some t → t.status = .pending → k ∈ pr.1.task_queue) ∧
        (∀ id ∈ pr.1.task_queue, ∃ t, lookupA pr.1.tasks id = some t ∧
          t.status ≠ .assigned) ∧
        (∀ k t, lookupA pr.1.tasks k = some t → t.status = .assigned →
          (∃ nid, t.assigned_to = some nid ∧ nid ≠ "") ∧ k ∉ pr.1.task_queue))).getD
      False := by
  cases hrun : run (init false false false) [Op.http_submit "a" "x" 1,
      Op.http_submit "b" "x" 1, Op.connect "h1" 0 false false,
      Op.msg "h1" (InMsg.task_result 1 "r" (some true))] with
  | none => exact absurd hrun (by decide)
  | some pr =>
    obtain ⟨s, ev⟩ := pr
    simpa using
      queue_pending_invariant_amended false false false [Op.http_submit "a" "x" 1,
        Op.http_submit "b" "x" 1, Op.connect "h1" 0 false false,
        Op.msg "h1" (InMsg.task_result 1 "r" (some true))] s ev hrun

end Coordinator

namespace Coordinator

/-- C6 counterexample: the claim "per-backend registration flags are
preserved across a reconnect" is false on the code.  With Kubernetes
available, a node whose first registration attempt failed (flag still
false) reconnects; `auto_register_to_clusters` retries because the flag
is unset, succeeds, and flips the flag to true — not preserved from
before the disconnection. -/
theorem reconnect_flag_counterexample :
    ((run (init true false false) [Op.connect "h2" 0 false false,
        Op.disconnect "h2"]).map
      (fun pr => (lookupA pr.1.nodes (nodeIdOf "h2")).map
        ComputeNode.kubernetes_registered) = some (some false)) ∧
    ((run (init true false false) [Op.connect "h2" 0 false false, Op.disconnect "h2",
        Op.connect "h2" 1 true false]).map
      (fun pr => (lookupA pr.1.nodes (nodeIdOf "h2")).map
        ComputeNode.kubernetes_registered) = some (some true)) := ⟨by decide, by decide⟩

/-- C6 amended: when a known node identity reconnects, the registry
update sets status connected and refreshes last-seen; the stored
identity, completed-task counter, capability set and performance score
are preserved from before the disconnection; a backend flag that was
already set stays set (an unset flag may however be set by the
connect-time auto-registration when the backend is available and the
external registration succeeds); every other node's record is untouched;
and no activity whatsoever deletes a node record. -/
theorem reconnect_preserves_node_history (s s' : CoordState) (ip : String) (now : Nat)
    (k8sOk slurmOk : Bool) (ev : List Event) (n : ComputeNode)
    (hn : lookupA s.nodes (nodeIdOf ip) = some n)
    (h : step s (.connect ip now k8sOk slurmOk) = some (s', ev)) :
    ((∃ n', lookupA s'.nodes (nodeIdOf ip) = some n' ∧
      n'.node_id = n.node_id ∧ n'.ip_address = n.ip_address ∧
      n'.status = .connected ∧ n'.last_seen = now ∧
      n'.tasks_completed = n.tasks_completed ∧ n'.capabilities = n.capabilities ∧
      n'.performance_score = n.performance_score ∧
      (n.kubernetes_registered = true → n'.kubernetes_registered = true) ∧
      (n.slurm_registered = true → n'.slurm_registered = true)) ∧
    (∀ k, k ≠ nodeIdOf ip → lookupA s'.nodes k = lookupA s.nodes k)) ∧
    (∀ s₀ op s₁ ev₁, step s₀ op = some (s₁, ev₁) →
      ∀ k, (lookupA s₀.nodes k).isSome → (lookupA s₁.nodes k).isSome) :=
  ⟨register_handler_reconnect hn h, fun _ _ _ _ h₀ => step_nodes_grow h₀⟩

/-- Witness for the amended C6 on a concrete reconnect. -/
theorem reconnect_preserves_node_history_witness :
    ((run (init true false false) [Op.connect "h2" 0 false false,
        Op.disconnect "h2"]).bind
      (fun pr => (step pr.1 (Op.connect "h2" 5 true false)).map
        (fun pr2 => ∀ n, lookupA pr.1.nodes (nodeIdOf "h2") = some n →
          ((∃ n', lookupA pr2.1.nodes (nodeIdOf "h2") = some n' ∧
            n'.node_id = n.node_id ∧ n'.ip_address = n.ip_address ∧
            n'.status = .connected ∧ n'.last_seen = 5 ∧
            n'.tasks_completed = n.tasks_completed ∧ n'.capabilities = n.capabilities ∧
            n'.performance_score = n.performance_score ∧
            (n.kubernetes_registered = true → n'.kubernetes_registered = true) ∧
            (n.slurm_registered = true → n'.slurm_registered = true)) ∧
          (∀ k, k ≠ nodeIdOf "h2" →
            lookupA pr2.1.nodes k = lookupA pr.1.nodes k)) ∧
          (∀ s₀ op s₁ ev₁, step s₀ op = some (s₁, ev₁) →
            ∀ k, (lookupA s₀.nodes k).isSome → (lookupA s₁.nodes k).isSome)))).getD
      False := by
  cases hrun : run (init true false false) [Op.connect "h2" 0 false false,
      Op.disconnect "h2"] with
  | none => exact absurd hrun (by decide)
  | some pr =>
    obtain ⟨s, ev⟩ := pr
    cases hstep : step s (Op.connect "h2" 5 true false) with
    | none =>
      have hcomp : (run (init true false false) [Op.connect "h2" 0 false false,
          Op.disconnect "h2"]).bind
          (fun pr => step pr.1 (Op.connect "h2" 5 true false)) = none := by
        rw [hrun]
        exact hstep
      exact absurd hcomp (by decide)
    | some pr2 =>
      obtain ⟨s', ev'⟩ := pr2
      simp only [Option.bind]
      rw [hstep]
      simp only [Option.map_some', Option.getD_some]
      intro n hn
      exact reconnect_preserves_node_history s s' "h2" 5 true false ev' n hn hstep

/-- C9: an HTTP task submission with a non-empty task type, while some
node is connected, immediately triggers an unsolicited assignment: the
head of the re-sorted pending queue — by priority ordering possibly a
different task than the one just submitted — is popped and handed to the
first connected node in registry order, without any `request_task` from
that node. -/
theorem http_submit_triggers_eager_assignment (s s' : CoordState) (tt d : String)
    (p : Int) (nid : String) (ev : List Event)
    (htt : tt ≠ "") (hfc : firstConnected s = some nid)
    (h : step s (.http_submit tt d p) = some (s', ev)) :
    ∃ hd rest, (add_task tt d p s).2.task_queue = hd :: rest ∧
      s'.task_queue = rest ∧
      s'.assign_log = s.assign_log ++ [(hd, nid)] ∧
      taskStatus s' hd = some .assigned ∧
      (lookupA s'.tasks hd).map ComputeTask.assigned_to = some (some nid) := by
  unfold step submit_task_handler at h
  dsimp only at h
  rw [if_neg htt] at h
  have hfc' : firstConnected (add_task tt d p s).2 = some nid := hfc
  split at h
  case _ hfc0 =>
    rw [hfc'] at hfc0
    exact absurd hfc0 (by simp)
  case _ nid0 hfc0 =>
    rw [hfc'] at hfc0
    have hnid0 : nid0 = nid := (Option.some.inj hfc0).symm
    subst hnid0
    have hlen : (add_task tt d p s).2.task_queue.length
        = (s.task_queue ++ [s.next_id]).length :=
      (sortByPrio_perm _ _).length_eq
    cases hq1 : (add_task tt d p s).2.task_queue with
    | nil =>
      rw [hq1] at hlen
      simp at hlen
    | cons hd rest =>
      obtain ⟨t0, -, hq', hlog, -, -, hself, -⟩ := assign_task_shape hq1 h
      have hlog0 : (add_task tt d p s).2.assign_log = s.assign_log := rfl
      refine ⟨hd, rest, rfl, hq', by rw [hlog, hlog0], ?_, ?_⟩
      · rw [taskStatus, hself]
        rfl
      · rw [hself]
        rfl

/-- Witness for C9: two priority-5 tasks are submitted, a node connects
(eagerly taking task 0, leaving task 1 queued), then a priority-1 task
(id 2) is submitted over HTTP: the assignment triggered by that
submission hands out queued task 1 — not the task just submitted. -/
theorem http_submit_triggers_eager_assignment_witness :
    ((run (init false false false) [Op.http_submit "hi" "x" 5, Op.http_submit "hi2" "x" 5,
        Op.connect "h3" 0 false false]).map (fun pr => pr.1.next_id) = some 2) ∧
    ((run (init false false false) [Op.http_submit "hi" "x" 5, Op.http_submit "hi2" "x" 5,
        Op.connect "h3" 0 false false, Op.http_submit "lo" "x" 1]).map
      (fun pr => pr.1.assign_log)
      = some [(0, "android-h3"), (1, "android-h3")]) ∧
    ((run (init false false false) [Op.http_submit "hi" "x" 5, Op.http_submit "hi2" "x" 5,
        Op.connect "h3" 0 false false]).bind
      (fun pr => (step pr.1 (Op.http_submit "lo" "x" 1)).map
        (fun pr2 => ∃ hd rest,
          (add_task "lo" "x" 1 pr.1).2.task_queue = hd :: rest ∧
          pr2.1.task_queue = rest ∧
          pr2.1.assign_log = pr.1.assign_log ++ [(hd, "android-h3")] ∧
          taskStatus pr2.1 hd = some .assigned ∧
          (lookupA pr2.1.tasks hd).map ComputeTask.assigned_to
            = some (some "android-h3")))).getD False := by
  refine ⟨by decide, by decide, ?_⟩
  cases hrun : run (init false false false) [Op.http_submit "hi" "x" 5,
      Op.http_submit "hi2" "x" 5, Op.connect "h3" 0 false false] with
  | none => exact absurd hrun (by decide)
  | some pr =>
    obtain ⟨s, ev⟩ := pr
    cases hstep : step s (Op.http_submit "lo" "x" 1) with
    | none =>
      have hcomp : (run (init false false false) [Op.http_submit "hi" "x" 5,
          Op.http_submit "hi2" "x" 5, Op.connect "h3" 0 false false]).bind
          (fun pr => step pr.1 (Op.http_submit "lo" "x" 1)) = none := by
        rw [hrun]
        exact hstep
      exact absurd hcomp (by decide)
    | some pr2 =>
      obtain ⟨s', ev'⟩ := pr2
      simp only [Option.bind]
      rw [hstep]
      simp only [Option.map_some', Option.getD_some]
      have hfc : firstConnected s = some "android-h3" := by
        have hx : (run (init false false false) [Op.http_submit "hi" "x" 5,
            Op.http_submit "hi2" "x" 5, Op.connect "h3" 0 false false]).map
            (fun pr => firstConnected pr.1) = some (some "android-h3") := by decide
        rw [hrun] at hx
        simp only [Option.map_some', Option.some.injEq] at hx
        exact hx
      exact http_submit_triggers_eager_assignment s s' "lo" "x" 1 "android-h3" ev'
        (by decide) hfc hstep

/-- C10: a `task_result` for a known task id from a registered, connected
node treats a missing `success` field as success: unless the message
carries `success = false` explicitly, the task becomes completed (never
failed), the reported result is stored, the node's completed-task counter
is incremented by one, and a `task_ack` reply is sent. -/
theorem task_result_missing_success_means_completed (s s' : CoordState) (ip : String)
    (tid : Nat) (res : String) (suc : Option Bool) (t : ComputeTask) (n : ComputeNode)
    (ev : List Event)
    (ht : lookupA s.tasks tid = some t)
    (hn : lookupA s.nodes (nodeIdOf ip) = some n)
    (hc : nodeIdOf ip ∈ s.connections)
    (h : step s (.msg ip (.task_result tid res suc)) = some (s', ev)) :
    ev = [(nodeIdOf ip, Msg.task_ack tid)] ∧
    taskStatus s' tid = some (if suc.getD true then .completed else .failed) ∧
    (suc ≠ some false → taskStatus s' tid = some .completed) ∧
    (lookupA s'.tasks tid).map ComputeTask.result = some (some res) ∧
    (lookupA s'.nodes (nodeIdOf ip)).map ComputeNode.tasks_completed
      = some (n.tasks_completed + 1) := by
  simp only [step, handle_message, handle_task_result, ht, hn, Option.some.injEq,
    Prod.mk.injEq] at h
  obtain ⟨hs, hev⟩ := h
  have hts : s'.tasks = updateA tid
      (fun tk => { tk with
        status := if suc.getD true then TaskStatus.completed else TaskStatus.failed,
        result := some res }) s.tasks := by rw [← hs]
  have hns : s'.nodes = updateA (nodeIdOf ip)
      (fun nd => { nd with tasks_completed := nd.tasks_completed + 1 }) s.nodes := by
    rw [← hs]
  have hcs : s'.connections = s.connections := by rw [← hs]
  have hstat : taskStatus s' tid
      = some (if suc.getD true then TaskStatus.completed else TaskStatus.failed) := by
    rw [taskStatus, hts, lookupA_updateA_self, ht]
    rfl
  refine ⟨?_, hstat, ?_, ?_, ?_⟩
  · rw [← hev, hs]
    unfold send_to_node
    rw [hcs, if_pos hc]
  · intro hne
    rw [hstat]
    cases suc with
    | none => rfl
    | some b =>
      cases b with
      | true => rfl
      | false => exact absurd rfl hne
  · rw [hts, lookupA_updateA_self, ht]
    rfl
  · rw [hns, lookupA_updateA_self, hn]
    rfl

/-- Witness for C10: the node that was eagerly assigned task 0 reports a
result with no `success` field; the task completes. -/
theorem task_result_missing_success_means_completed_witness :
    ((run (init false false false) [Op.http_submit "a" "x" 2,
        Op.connect "h1" 7 false false]).bind
      (fun pr => (step pr.1 (Op.msg "h1" (InMsg.task_result 0 "res0" none))).map
        (fun pr2 => ∀ n, lookupA pr.1.nodes (nodeIdOf "h1") = some n →
          pr2.2 = [(nodeIdOf "h1", Msg.task_ack 0)] ∧
          taskStatus pr2.1 0 = some .completed ∧
          (lookupA pr2.1.tasks 0).map ComputeTask.result = some (some "res0") ∧
          (lookupA pr2.1.nodes (nodeIdOf "h1")).map ComputeNode.tasks_completed
            = some (n.tasks_completed + 1)))).getD False := by
  cases hrun : run (init false false false) [Op.http_submit "a" "x" 2,
      Op.connect "h1" 7 false false] with
  | none => exact absurd hrun (by decide)
  | some pr =>
    obtain ⟨s, ev⟩ := pr
    cases hstep : step s (Op.msg "h1" (InMsg.task_result 0 "res0" none)) with
    | none =>
      have hcomp : (run (init false false false) [Op.http_submit "a" "x" 2,
          Op.connect "h1" 7 false false]).bind
          (fun pr => step pr.1 (Op.msg "h1" (InMsg.task_result 0 "res0" none))) = none := by
        rw [hrun]
        exact hstep
      exact absurd hcomp (by decide)
    | some pr2 =>
      obtain ⟨s', ev'⟩ := pr2
      simp only [Option.bind]
      rw [hstep]
      simp only [Option.map_some', Option.getD_some]
      intro n hn
      have hts : (lookupA s.tasks 0).isSome := by
        have hx : (run (init false false false) [Op.http_submit "a" "x" 2,
            Op.connect "h1" 7 false false]).map
            (fun pr => (lookupA pr.1.tasks 0).isSome) = some true := by decide
        rw [hrun] at hx
        simp only [Option.map_some', Option.some.injEq] at hx
        exact hx
      obtain ⟨t, ht⟩ := Option.isSome_iff_exists.mp hts
      have hc : nodeIdOf "h1" ∈ s.connections := by
        have hx : (run (init false false false) [Op.http_submit "a" "x" 2,
            Op.connect "h1" 7 false false]).map
            (fun pr => decide (nodeIdOf "h1" ∈ pr.1.connections)) = some true := by decide
        rw [hrun] at hx
        simp only [Option.map_some', Option.some.injEq, decide_eq_true_eq] at hx
        exact hx
      obtain ⟨w1, w2, w3, w4, w5⟩ :=
        task_result_missing_success_means_completed s s' "h1" 0 "res0" none t n ev'
          ht hn hc hstep
      exact ⟨w1, w2, w4, w5⟩

end Coordinator
